import Mathlib

/-!
Verification of the FilaMama backend core services.

This file gives a shallow embedding, in Lean, of the pure logic of the
backend services of the FilaMama repository:

* backend/app/services/transcoding.py  (codec classification, cache keys,
  cache eviction, single-flight coordination of get_or_create_mp4)
* backend/app/services/thumbnails.py   (cache keys, get_thumbnail cache path)
* backend/app/services/trash.py        (manifest handling, move_to_trash,
  restore, path resolution, relativization)
* backend/app/services/filesystem.py   (_resolve_path, _get_relative_path)

Python strings are embedded as Lean Strings, operated on through their
underlying character lists; Python unbounded integers as Nat; the in-memory
filesystem as an association list from absolute path strings to file
contents; asyncio cooperative concurrency as a small-step scheduler over
lists of per-task program counters, where one step is one maximal
synchronous block between await points.

Definitions come first, then the theorems about them.
-/

namespace FilaMama

/-! ## String utilities (embedding of the Python str operations used) -/

/-- Splitting a character list on a separator, embedding Python str.split
with a single character separator.  Always returns at least one group. -/
def splitChar (sep : Char) : List Char → List (List Char)
  | [] => [[]]
  | c :: rest =>
    match splitChar sep rest with
    | [] => [[]]
    | g :: gs => if c = sep then [] :: g :: gs else (c :: g) :: gs

/-- Embedding of Python str.startswith. -/
def pyStartsWith (s pre : String) : Bool := pre.data.isPrefixOf s.data

/-- Embedding of Python s[1:] (drop the first character). -/
def pyDrop1 (s : String) : String := ⟨s.data.drop 1⟩

/-- Decimal digit characters. -/
def digitChar (d : ℕ) : Char :=
  match d with
  | 0 => '0' | 1 => '1' | 2 => '2' | 3 => '3' | 4 => '4'
  | 5 => '5' | 6 => '6' | 7 => '7' | 8 => '8' | _ => '9'

/-- Character list of the decimal representation of a positive Nat, most
significant digit first, empty for 0.  The first argument is fuel
bounding the number of digits, so that the recursion is structural and
reduces inside the kernel; natDecimal supplies the number itself as
fuel, which always suffices. -/
def natDecimalCore : ℕ → ℕ → List Char
  | 0, _ => []
  | fuel + 1, n =>
    if n = 0 then [] else natDecimalCore fuel (n / 10) ++ [digitChar (n % 10)]

/-- Embedding of Python str(n) for a nonnegative integer n. -/
def natDecimal (n : ℕ) : String :=
  if n = 0 then "0" else ⟨natDecimalCore n n⟩

/-- Value of a digit character. -/
def digitVal (c : Char) : ℕ := c.toNat - 48

/-- Decimal value of a character list read as digits. -/
def decValue (l : List Char) : ℕ :=
  l.foldl (fun acc c => 10 * acc + digitVal c) 0

/-! ## Transcode classification (transcoding.py lines 14 to 15, 129 to 145)

BROWSER_VIDEO_CODECS and BROWSER_AUDIO_CODECS are the allow-lists from the
top of transcoding.py.  In get_or_create_mp4, a failed probe is replaced by
the dictionary with video_codec and audio_codec both "unknown", and then

  video_ok = probe[video_codec] in BROWSER_VIDEO_CODECS
  audio_ok = probe[audio_codec] in BROWSER_AUDIO_CODECS
             or probe[audio_codec] is None

selects remux when both hold and transcode otherwise. -/

def BROWSER_VIDEO_CODECS : List String := ["h264", "h265", "hevc", "vp8", "vp9", "av1"]

def BROWSER_AUDIO_CODECS : List String := ["aac", "mp3", "opus", "vorbis", "flac"]

/-- Codec information extracted by probe_codecs; a stream that is absent
has codec none. -/
structure ProbeResult where
  video_codec : Option String
  audio_codec : Option String
deriving DecidableEq, Repr

inductive TranscodeDecision
  | remux
  | transcode
deriving DecidableEq, Repr

/-- Membership test of an optional codec name in an allow-list; Python
evaluates (None in set_of_strings) to False. -/
def codecIn (c : Option String) (allow : List String) : Bool :=
  match c with
  | some name => allow.contains name
  | none => false

/-- Classification step of get_or_create_mp4 (transcoding.py lines
129 to 145): a failed probe (none) is replaced by unknown codecs, then the
allow-lists decide remux versus transcode. -/
def classifyProbe (probe : Option ProbeResult) : TranscodeDecision :=
  let p := match probe with
    | none => ProbeResult.mk (some "unknown") (some "unknown")
    | some p => p
  let videoOk := codecIn p.video_codec BROWSER_VIDEO_CODECS
  let audioOk := codecIn p.audio_codec BROWSER_AUDIO_CODECS || p.audio_codec == none
  if videoOk && audioOk then .remux else .transcode

/-! ## Cache eviction (transcoding.py _evict_if_needed, lines 208 to 233)

The cache directory is modelled as the list of its files, each carrying a
name, a byte size and an access time.  _evict_if_needed returns early when
the size bound is zero (falsy), when there are no files, or when the total
size is already within the bound; otherwise it sorts by access time and
deletes files oldest first until the running total is within the bound.
Python list.sort is a stable sort on the access-time key, modelled by
insertion sort, which is also stable. -/

structure CacheFile where
  name : String
  size : ℕ
  atime : ℕ
deriving DecidableEq, Repr

def totalSize (fs : List CacheFile) : ℕ := (fs.map CacheFile.size).sum

instance : IsTotal CacheFile (fun a b => a.atime ≤ b.atime) :=
  ⟨fun a b => Nat.le_total a.atime b.atime⟩

instance : IsTrans CacheFile (fun a b => a.atime ≤ b.atime) :=
  ⟨fun _ _ _ h h2 => Nat.le_trans h h2⟩

/-- Files sorted by access time, oldest first. -/
def sortByAtime (fs : List CacheFile) : List CacheFile :=
  fs.insertionSort (fun a b => a.atime ≤ b.atime)

/-- The deletion loop of _evict_if_needed: walk the sorted list, deleting
while the running total exceeds the bound; returns (deleted, kept).
The second argument is the running total_size variable. -/
def evictLoop (bound : ℕ) : List CacheFile → ℕ → List CacheFile × List CacheFile
  | [], _ => ([], [])
  | f :: rest, total =>
    if total ≤ bound then ([], f :: rest)
    else
      let r := evictLoop bound rest (total - f.size)
      (f :: r.1, r.2)

/-- Embedding of TranscodingService._evict_if_needed, returning the files
remaining in the cache directory. -/
def evictIfNeeded (bound : ℕ) (fs : List CacheFile) : List CacheFile :=
  if bound = 0 then fs
  else if fs = [] then fs
  else if totalSize fs ≤ bound then fs
  else (evictLoop bound (sortByAtime fs) (totalSize fs)).2

/-- Files deleted by _evict_if_needed. -/
def evictedFiles (bound : ℕ) (fs : List CacheFile) : List CacheFile :=
  if bound = 0 then []
  else if fs = [] then []
  else if totalSize fs ≤ bound then []
  else (evictLoop bound (sortByAtime fs) (totalSize fs)).1

/-! ## Path resolution and relativization

Embedding of TrashService._resolve_path / _get_relative_path (trash.py
lines 43 to 58) and FilesystemService._resolve_path / _get_relative_path
(filesystem.py lines 46 to 79).  Paths are strings; pathlib parsing drops
empty and "." components, and Path.resolve normalizes ".." lexically
(symlinks are outside the model).  The sandbox checks are the string-level
startswith tests the Python code performs. -/

inductive PathError
  | pathTraversal
deriving DecidableEq, Repr

instance {ε α : Type} [DecidableEq ε] [DecidableEq α] :
    DecidableEq (Except ε α) := fun x y =>
  match x, y with
  | .ok a, .ok b =>
    if h : a = b then isTrue (by rw [h]) else isFalse (by simp [h])
  | .error a, .error b =>
    if h : a = b then isTrue (by rw [h]) else isFalse (by simp [h])
  | .ok _, .error _ => isFalse (by simp)
  | .error _, .ok _ => isFalse (by simp)

/-- Components of a character list seen as a path: split on the slash
and drop empty and "." groups, as pathlib does when parsing. -/
def charParts (l : List Char) : List String :=
  ((splitChar '/' l).filter (fun g => !(g == [] || g == ['.']))).map
    (fun g => String.mk g)

/-- Components of a path string. -/
def pathParts (s : String) : List String := charParts s.data

/-- Well-formedness of one path component: nonempty, not a dot form, and
free of slashes, as the components of a real absolute path are. -/
def wfComp (c : String) : Prop :=
  c ≠ "" ∧ c ≠ "." ∧ c ≠ ".." ∧ '/' ∉ c.data

def wfComps (r : List String) : Prop := ∀ c ∈ r, wfComp c

instance (c : String) : Decidable (wfComp c) :=
  decidable_of_iff (c ≠ "" ∧ c ≠ "." ∧ c ≠ ".." ∧ '/' ∉ c.data) Iff.rfl

instance (r : List String) : Decidable (wfComps r) :=
  decidable_of_iff (∀ c ∈ r, wfComp c) Iff.rfl

/-- Lexical ".." elimination of Path.resolve, walking the component list
with an accumulator; ".." at the root stays at the root. -/
def resolveComps (acc : List String) : List String → List String
  | [] => acc
  | c :: rest =>
    if c = ".." then resolveComps acc.dropLast rest
    else resolveComps (acc ++ [c]) rest

/-- Join of absolute-path components without the root special case:
"/a/b" for [a, b], "" for []. -/
def joinAbs : List String → String
  | [] => ""
  | c :: rest => "/" ++ c ++ joinAbs rest

/-- Rendering of an absolute path from components, as str does on a
pathlib Path: "/" for the empty list. -/
def compsToStr (r : List String) : String :=
  if r = [] then "/" else joinAbs r

/-- Canonical form of an absolute path string, embedding Path.resolve. -/
def normalizeAbs (s : String) : String :=
  compsToStr (resolveComps [] (pathParts s))

/-- Embedding of the pathlib join parent / name for an absolute parent. -/
def joinPath (parent name : String) : String :=
  if parent = "/" then "/" ++ name else parent ++ "/" ++ name

/-- Embedding of TrashService._resolve_path (trash.py lines 43 to 49): a
leading slash is stripped, the path is joined under the root and
canonicalized, and the result must start (as a string) with the root. -/
def trashResolvePath (rootStr path : String) : Except PathError String :=
  let p := if pyStartsWith path "/" then pyDrop1 path else path
  let full := normalizeAbs (joinPath rootStr p)
  if pyStartsWith full rootStr then .ok full else .error .pathTraversal

/-- Embedding of FilesystemService._resolve_path (filesystem.py lines
46 to 63).  Mounts are the resolved mount root strings.  A candidate equal
to a mount or starting with mount-slash is canonicalized and checked
against that mount; otherwise the primary-root logic of the trash service
applies. -/
def fsResolvePath (mounts : List String) (rootStr path : String) :
    Except PathError String :=
  match mounts.find? (fun m => path == m || pyStartsWith path (m ++ "/")) with
  | some m =>
    let full := normalizeAbs path
    if pyStartsWith full m then .ok full else .error .pathTraversal
  | none => trashResolvePath rootStr path

/-- Embedding of Path.relative_to on absolute paths: defined when the
root components lead the path components, returning the remainder. -/
def relCompsTo (absStr rootStr : String) : Option (List String) :=
  if (pathParts rootStr).isPrefixOf (pathParts absStr) then
    some ((pathParts absStr).drop (pathParts rootStr).length)
  else none

/-- Join of relative-path components: "a/b" for [a, b], "" for []. -/
def joinRel : List String → String
  | [] => ""
  | [c] => c
  | c :: rest => c ++ "/" ++ joinRel rest

/-- Embedding of TrashService._get_relative_path (trash.py lines
51 to 58): the relative form of the path under the root, "/" for the root
itself, and "/" as well when relative_to raises ValueError. -/
def trashGetRelativePath (rootStr absStr : String) : String :=
  match relCompsTo absStr rootStr with
  | some [] => "/"
  | some comps => "/" ++ joinRel comps
  | none => "/"

/-- Embedding of FilesystemService._get_relative_path (filesystem.py
lines 65 to 79): a path whose string starts with a mount root string is
returned unchanged; otherwise the primary-root logic applies. -/
def fsGetRelativePath (mounts : List String) (rootStr absStr : String) :
    String :=
  match mounts.find? (fun m => pyStartsWith absStr m) with
  | some _ => absStr
  | none => trashGetRelativePath rootStr absStr

/-! ## Trash service state model (trash.py)

The filesystem is an association list from absolute path strings to file
contents (type parameter).  The manifest file is modelled separately by
its possible observable states: missing, unparseable (json.JSONDecodeError
or OSError), parseable but not a list, or a parsed entry list. -/

structure TrashEntry where
  id : String
  original_path : String
  trash_name : String
  deleted_at : String
deriving DecidableEq, Repr

inductive ManifestFile
  | missing
  | corrupt
  | wrongShape
  | entries (l : List TrashEntry)
deriving DecidableEq, Repr

structure TrashState (α : Type) where
  files : List (String × α)
  manifest : ManifestFile
deriving DecidableEq, Repr

/-- Embedding of TrashService._read_manifest (trash.py lines 28 to 35):
a missing file gives the empty list, a parse or read failure gives the
empty list, data of the wrong shape gives the empty list. -/
def readManifest : ManifestFile → List TrashEntry
  | .entries l => l
  | _ => []

/-- Trash directory string: root joined with TRASH_DIR_NAME. -/
def trashDirStr (rootStr : String) : String :=
  joinPath rootStr ".deleted_items"

def fsLookup {α : Type} (fs : List (String × α)) (p : String) : Option α :=
  fs.lookup p

def fsExistsB {α : Type} (fs : List (String × α)) (p : String) : Bool :=
  (fsLookup fs p).isSome

def fsDel {α : Type} (fs : List (String × α)) (p : String) :
    List (String × α) :=
  fs.filter (fun kv => !(kv.1 == p))

def fsSet {α : Type} (fs : List (String × α)) (p : String) (v : α) :
    List (String × α) :=
  (p, v) :: fsDel fs p

/-- Embedding of shutil.move between file paths in the file map. -/
def fsMove {α : Type} (fs : List (String × α)) (src dst : String) :
    List (String × α) :=
  match fsLookup fs src with
  | some v => fsSet (fsDel fs src) dst v
  | none => fs

/-- Last component of a path, embedding Path.name. -/
def pathName (s : String) : String :=
  match (pathParts s).getLast? with
  | some n => n
  | none => ""

/-- Parent of a path, embedding str of Path.parent. -/
def pathParent (s : String) : String :=
  compsToStr (pathParts s).dropLast

/-- Split of a file name character list at its last dot, where a dot in
final position does not open a suffix; returns (stem part, suffix part
including the dot). -/
def splitLastDot : List Char → List Char × List Char
  | [] => ([], [])
  | c :: rest =>
    if rest.contains '.' then
      let r := splitLastDot rest
      (c :: r.1, r.2)
    else if c = '.' && !rest.isEmpty then ([], c :: rest)
    else (c :: rest, [])

/-- Embedding of Path.stem and Path.suffix of a file name: the first
character never opens a suffix (a leading dot is part of the stem). -/
def stemSuffix (name : String) : String × String :=
  match name.data with
  | [] => ("", "")
  | c :: rest =>
    let r := splitLastDot rest
    (String.mk (c :: r.1), String.mk r.2)

/-- Accumulator threaded by the move_to_trash and restore batch loops:
the file map, the in-memory manifest list, and the running count. -/
structure TrashAcc (α : Type) where
  files : List (String × α)
  manifest : List TrashEntry
  count : ℕ
deriving DecidableEq, Repr

/-- First millisecond timestamp at or after the current one whose trash
name is free, embedding the while loop of move_to_trash (trash.py lines
80 to 83).  The fuel is always called with more candidates than occupied
paths, so the loop in the source and this function agree. -/
def freeTrashTimestamp {α : Type} (fs : List (String × α))
    (dir base : String) : ℕ → ℕ → ℕ
  | 0, t => t
  | fuel + 1, t =>
    if fsExistsB fs (dir ++ "/" ++ natDecimal t ++ "_" ++ base) then
      freeTrashTimestamp fs dir base fuel (t + 1)
    else t

/-- Body of the move_to_trash per-path loop (trash.py lines 66 to 93).
A path traversal error propagates and aborts the batch before the
manifest is written, as the uncaught ValueError does in the source. -/
def moveOne {α : Type} (rootStr : String) (nowMs : ℕ) (nowIso : String)
    (acc : TrashAcc α) (path : String) : Except PathError (TrashAcc α) :=
  match trashResolvePath rootStr path with
  | .error e => .error e
  | .ok filePath =>
    if !fsExistsB acc.files filePath then .ok acc
    else if pyStartsWith filePath (trashDirStr rootStr) then .ok acc
    else
      let base := pathName filePath
      let t := freeTrashTimestamp acc.files (trashDirStr rootStr) base
        (acc.files.length + 1) nowMs
      let trashName := natDecimal t ++ "_" ++ base
      let trashPath := trashDirStr rootStr ++ "/" ++ trashName
      .ok ⟨fsMove acc.files filePath trashPath,
        acc.manifest ++
          [⟨trashName, trashGetRelativePath rootStr filePath, trashName,
            nowIso⟩],
        acc.count + 1⟩

/-- Embedding of TrashService.move_to_trash (trash.py lines 60 to 98):
read the manifest, process the batch, persist the manifest, return the
count of items moved. -/
def moveToTrash {α : Type} (rootStr : String) (nowMs : ℕ) (nowIso : String)
    (st : TrashState α) (paths : List String) :
    Except PathError (ℕ × TrashState α) :=
  match paths.foldlM (moveOne rootStr nowMs nowIso)
      ⟨st.files, readManifest st.manifest, 0⟩ with
  | .error e => .error e
  | .ok acc => .ok (acc.count, ⟨acc.files, .entries acc.manifest⟩)

/-- First counter value whose collision-renamed destination is free,
embedding the while loop of restore (trash.py lines 159 to 165). -/
def freeRestoreCounter {α : Type} (fs : List (String × α))
    (parent stem ext : String) : ℕ → ℕ → ℕ
  | 0, n => n
  | fuel + 1, n =>
    if fsExistsB fs (joinPath parent (stem ++ "(" ++ natDecimal n ++ ")" ++ ext)) then
      freeRestoreCounter fs parent stem ext fuel (n + 1)
    else n

/-- Body of the restore per-id loop (trash.py lines 142 to 169).  An id
absent from the manifest is skipped; an entry whose physical item is gone
is dropped from the manifest with no count; otherwise the item moves back
to its original path, renamed with a counter suffix on collision. -/
def restoreOne {α : Type} (rootStr : String) (acc : TrashAcc α)
    (trashName : String) : Except PathError (TrashAcc α) :=
  match acc.manifest.find? (fun e => e.trash_name == trashName) with
  | none => .ok acc
  | some entry =>
    let trashPath := trashDirStr rootStr ++ "/" ++ trashName
    if !fsExistsB acc.files trashPath then
      .ok ⟨acc.files,
        acc.manifest.filter (fun e => !(e.trash_name == trashName)),
        acc.count⟩
    else
      match trashResolvePath rootStr entry.original_path with
      | .error e => .error e
      | .ok originalPath =>
        let dest :=
          if fsExistsB acc.files originalPath then
            let se := stemSuffix (pathName originalPath)
            let parent := pathParent originalPath
            let n := freeRestoreCounter acc.files parent se.1 se.2
              (acc.files.length + 1) 1
            joinPath parent (se.1 ++ "(" ++ natDecimal n ++ ")" ++ se.2)
          else originalPath
        .ok ⟨fsMove acc.files trashPath dest,
          acc.manifest.filter (fun e => !(e.trash_name == trashName)),
          acc.count + 1⟩

/-- Embedding of TrashService.restore (trash.py lines 137 to 174). -/
def restoreTrash {α : Type} (rootStr : String) (st : TrashState α)
    (ids : List String) : Except PathError (ℕ × TrashState α) :=
  match ids.foldlM (restoreOne rootStr) ⟨st.files, readManifest st.manifest, 0⟩ with
  | .error e => .error e
  | .ok acc => .ok (acc.count, ⟨acc.files, .entries acc.manifest⟩)

/-! ## Cooperative concurrency models for the caches

The asyncio event loop runs one task at a time; a task releases control
only at an await point.  Both models therefore take one step to be one
maximal synchronous block between suspension points of the Python
coroutine, and a run is a fold of steps over an arbitrary schedule (a
list of task indices); stepping a task that is finished or blocked leaves
the state unchanged.  Both models fix one cache key (one source file and
variant), as in the single-flight claim, with no pre-existing cache
entry.  The producer outcome is a parameter, the same at every
invocation, since the producer is a deterministic function of the one
fixed source.

The thumbnail coroutine get_thumbnail (thumbnails.py lines 47 to 78)
awaits its generator, but every generator is an async def containing no
await (PIL, zipfile and xml parsing, or a blocking subprocess.run), so
awaiting one never yields control to the event loop: a whole
get_thumbnail call, from the cache check through the generator run to
the cache write, is one synchronous block.  A step of the thumbnail
model is therefore one entire call.  There is no in-flight job registry
in the source, and a failed generator (returning None) writes nothing to
the cache, so a later call for the same key runs the generator again.

The transcode coroutine get_or_create_mp4 (transcoding.py lines 103 to
160) suspends at the semaphore acquire when no permit is free, at the
ffprobe subprocess, and at the ffmpeg subprocess, and otherwise runs the
registration, re-check, rename and finally blocks synchronously.  The
"finally" block (event.set and job-map pop) runs inside the same
synchronous block as the return.  The eviction call is guarded by
write_count being a multiple of ten; with a single key and a fresh
service the counter reaches exactly one, so eviction does not run in the
modelled scenario. -/

inductive ThumbPC
  | start
  | done (result : Option ℕ)
deriving DecidableEq, Repr

structure ThumbSystem where
  cacheBytes : Option ℕ
  producerCount : ℕ
  tasks : List ThumbPC
deriving DecidableEq, Repr

/-- One step of the thumbnail model: the whole get_thumbnail call of
task i (cache check, generator run, cache write, return), executed as a
single synchronous block since the generators never suspend; pbytes is
the producer outcome (none models generator failure, after which nothing
is written to the cache). -/
def thumbStep (pbytes : Option ℕ) (s : ThumbSystem) (i : ℕ) : ThumbSystem :=
  match s.tasks[i]? with
  | none => s
  | some pc =>
    match pc with
    | .start =>
      match s.cacheBytes with
      | some b => { s with tasks := s.tasks.set i (.done (some b)) }
      | none =>
        match pbytes with
        | some b =>
          { s with cacheBytes := some b,
                   producerCount := s.producerCount + 1,
                   tasks := s.tasks.set i (.done (some b)) }
        | none =>
          { s with producerCount := s.producerCount + 1,
                   tasks := s.tasks.set i (.done none) }
    | .done _ => s

def runThumb (pbytes : Option ℕ) (sched : List ℕ) (s : ThumbSystem) :
    ThumbSystem :=
  sched.foldl (thumbStep pbytes) s

def initThumb (n : ℕ) : ThumbSystem := ⟨none, 0, List.replicate n .start⟩

def thumbDone : ThumbPC → Bool
  | .done _ => true
  | _ => false

def thumbAllDone (s : ThumbSystem) : Bool := s.tasks.all thumbDone

/-- Invariant of the thumbnail model with a succeeding producer: either
no call has run yet (empty cache, producer never executed, every task at
start), or some call has run, the bytes are cached, the producer has
executed exactly once, and every task is still at start or done with the
cached bytes. -/
def thumbInv (n b : ℕ) (s : ThumbSystem) : Prop :=
  s.tasks.length = n ∧
  ((s.cacheBytes = none ∧ s.producerCount = 0 ∧
      ∀ j < n, s.tasks[j]? = some .start) ∨
   (s.cacheBytes = some b ∧ s.producerCount = 1 ∧
      ∀ j < n, s.tasks[j]? = some .start ∨
        s.tasks[j]? = some (.done (some b))))

inductive TransPC
  | start
  | semWaiting (g : ℕ)
  | probing (g : ℕ)
  | producing (g : ℕ)
  | waiting (g : ℕ)
  | done (result : Bool)
deriving DecidableEq, Repr

structure TransSystem where
  cache : Bool
  jobs : Option ℕ
  events : List Bool
  sem : ℕ
  writeCount : ℕ
  producerCount : ℕ
  tasks : List TransPC
deriving DecidableEq, Repr

/-- One step of task i of the transcode model; producerOk is the ffmpeg
outcome.  The result field of done is true when the call returns the
cache path and false when it returns None. -/
def transStep (producerOk : Bool) (s : TransSystem) (i : ℕ) : TransSystem :=
  match s.tasks[i]? with
  | none => s
  | some pc =>
    match pc with
    | .start =>
      if s.cache then { s with tasks := s.tasks.set i (.done true) }
      else
        match s.jobs with
        | some g => { s with tasks := s.tasks.set i (.waiting g) }
        | none =>
          let g := s.events.length
          if s.sem > 0 then
            if s.cache then
              { s with events := (s.events ++ [false]).set g true,
                       jobs := none, tasks := s.tasks.set i (.done true) }
            else
              { s with events := s.events ++ [false], jobs := some g,
                       sem := s.sem - 1, tasks := s.tasks.set i (.probing g) }
          else
            { s with events := s.events ++ [false], jobs := some g,
                     tasks := s.tasks.set i (.semWaiting g) }
    | .semWaiting g =>
      if s.sem > 0 then
        if s.cache then
          { s with events := s.events.set g true, jobs := none,
                   tasks := s.tasks.set i (.done true) }
        else { s with sem := s.sem - 1, tasks := s.tasks.set i (.probing g) }
      else s
    | .probing g =>
      { s with producerCount := s.producerCount + 1,
               tasks := s.tasks.set i (.producing g) }
    | .producing g =>
      if producerOk then
        { s with cache := true, writeCount := s.writeCount + 1,
                 sem := s.sem + 1, events := s.events.set g true,
                 jobs := none, tasks := s.tasks.set i (.done true) }
      else
        { s with sem := s.sem + 1, events := s.events.set g true,
                 jobs := none, tasks := s.tasks.set i (.done false) }
    | .waiting g =>
      match s.events[g]? with
      | some true =>
        if s.cache then { s with tasks := s.tasks.set i (.done true) }
        else { s with tasks := s.tasks.set i (.done false) }
      | _ => s
    | .done _ => s

def runTrans (producerOk : Bool) (sched : List ℕ) (s : TransSystem) :
    TransSystem :=
  sched.foldl (transStep producerOk) s

/-- Fresh service, no cache entry for the key, max_concurrent = 2. -/
def initTrans (n : ℕ) : TransSystem :=
  ⟨false, none, [], 2, 0, 0, List.replicate n .start⟩

def transDone : TransPC → Bool
  | .done _ => true
  | _ => false

def transAllDone (s : TransSystem) : Bool := s.tasks.all transDone

/-- A schedule under which the n calls are concurrent: all n calls are
pending together and the scheduler opens by giving each call its first
block, in some order.  For the transcode model this runs every call to
its first suspension before any call completes; a thumbnail call has a
single block, so its first turn is the entire call. -/
def ConcurrentSched (n : ℕ) (sched : List ℕ) : Prop :=
  ∃ p rest, sched = p ++ rest ∧ p.Perm (List.range n)

/-- Prefix-stage invariant of the transcode model with one fixed key: the
scheduled call o owns the in-flight job (registered generation 0, one
semaphore permit taken, suspended at the probe), and every other call has
either not yet run its first block (rem lists those still to run) or is
parked on the generation 0 event. -/
def transPrefix (n o : ℕ) (rem : List ℕ) (s : TransSystem) : Prop :=
  s.tasks.length = n ∧ s.cache = false ∧ s.jobs = some 0 ∧
  s.events = [false] ∧ s.sem = 1 ∧ s.producerCount = 0 ∧
  s.tasks[o]? = some (.probing 0) ∧
  ∀ j < n, j ≠ o →
    s.tasks[j]? = some (.waiting 0) ∨ (j ∈ rem ∧ s.tasks[j]? = some .start)

/-- Main-stage invariant, phase one: every call has run its first block,
the owner o is suspended at the probe, everyone else waits on the event. -/
def transPhaseA (n o : ℕ) (s : TransSystem) : Prop :=
  s.tasks.length = n ∧ s.cache = false ∧ s.jobs = some 0 ∧
  s.events = [false] ∧ s.sem = 1 ∧ s.producerCount = 0 ∧
  s.tasks[o]? = some (.probing 0) ∧
  ∀ j < n, j ≠ o → s.tasks[j]? = some (.waiting 0)

/-- Phase two: the owner has invoked the producer exactly once and is
suspended at it. -/
def transPhaseB (n o : ℕ) (s : TransSystem) : Prop :=
  s.tasks.length = n ∧ s.cache = false ∧ s.jobs = some 0 ∧
  s.events = [false] ∧ s.sem = 1 ∧ s.producerCount = 1 ∧
  s.tasks[o]? = some (.producing 0) ∧
  ∀ j < n, j ≠ o → s.tasks[j]? = some (.waiting 0)

/-- Phase three: the producer has finished with outcome ok; the cache
holds the artifact exactly when ok, the event is set, the job is
deregistered, and every call is finished with the common outcome or still
parked, about to observe it. -/
def transPhaseC (n : ℕ) (ok : Bool) (s : TransSystem) : Prop :=
  s.tasks.length = n ∧ s.cache = ok ∧ s.jobs = none ∧
  s.events = [true] ∧ s.sem = 2 ∧ s.producerCount = 1 ∧
  ∀ j < n,
    s.tasks[j]? = some (.done ok) ∨ s.tasks[j]? = some (.waiting 0)

/-- Invariant of the transcode model after all concurrent calls have run
their first block. -/
def transInv (n : ℕ) (ok : Bool) (s : TransSystem) : Prop :=
  (∃ o < n, transPhaseA n o s ∨ transPhaseB n o s) ∨ transPhaseC n ok s

/-! ## Crash and visibility model of the cache write paths

One producer for one cache key, observed at the level of the two disk
names it can touch: the canonical cache path and the temporary name.  A
file being written passes through a partial state; a crash is simply a
trace that stops.  The thumbnail producer writes the final bytes directly
at the canonical path (thumbnails.py line 76); the transcode producer has
ffmpeg write the temporary name, renames it onto the canonical path on
success, and unlinks it on failure (transcoding.py lines 138 to 157). -/

inductive FileState
  | absent
  | writing
  | complete
deriving DecidableEq, Repr

structure ProducerFiles where
  canonical : FileState
  tmp : FileState
deriving DecidableEq, Repr

def initFiles : ProducerFiles := ⟨.absent, .absent⟩

/-- Steps of the thumbnail write path: cache_path.write_bytes begins and
completes at the canonical path itself. -/
inductive thumbWriteStep : ProducerFiles → ProducerFiles → Prop
  | writeBegin (s : ProducerFiles) :
      s.canonical = .absent → thumbWriteStep s { s with canonical := .writing }
  | writeFinish (s : ProducerFiles) :
      s.canonical = .writing → thumbWriteStep s { s with canonical := .complete }

/-- Steps of the transcode write path: ffmpeg writes the temporary name,
a completed temporary file is renamed onto the canonical path in one
atomic step, and failure unlinks the temporary file. -/
inductive transWriteStep : ProducerFiles → ProducerFiles → Prop
  | tmpBegin (s : ProducerFiles) :
      s.tmp = .absent → transWriteStep s { s with tmp := .writing }
  | tmpFinish (s : ProducerFiles) :
      s.tmp = .writing → transWriteStep s { s with tmp := .complete }
  | renameIntoPlace (s : ProducerFiles) :
      s.tmp = .complete → transWriteStep s ⟨.complete, .absent⟩
  | cleanupTmp (s : ProducerFiles) :
      transWriteStep s { s with tmp := .absent }

def thumbReach : ProducerFiles → Prop :=
  Relation.ReflTransGen thumbWriteStep initFiles

def transReach : ProducerFiles → Prop :=
  Relation.ReflTransGen transWriteStep initFiles

/-! ## Cache keys (thumbnails.py lines 32 to 35, transcoding.py lines
40 to 43)

The key data string is an f-string of the path, st_mtime, st_size and
(for thumbnails) the size variant; the cache key is the md5 hex digest of
its utf-8 encoding.  st_size is a nonnegative unbounded integer, embedded
as Nat rendered in decimal; st_mtime is a float, embedded by its decimal
rendering (repr of a Python float is injective on floats, so distinct
mtimes give distinct strings).  md5 is implemented below from the
standard algorithm over Nat with explicit reduction mod 2 ^ 32. -/

def MASK32 : ℕ := 4294967296

/-- Bitwise complement within 32 bits. -/
def not32 (x : ℕ) : ℕ := 4294967295 - x % MASK32

/-- Left rotation of a 32 bit word. -/
def rotl32 (x n : ℕ) : ℕ := (x * 2 ^ n + x / 2 ^ (32 - n)) % MASK32

/-- Per-round additive constants, floor(abs(sin(i + 1)) * 2 ^ 32). -/
def md5K : List ℕ :=
  [3614090360, 3905402710, 606105819, 3250441966, 4118548399, 1200080426,
   2821735955, 4249261313, 1770035416, 2336552879, 4294925233, 2304563134,
   1804603682, 4254626195, 2792965006, 1236535329, 4129170786, 3225465664,
   643717713, 3921069994, 3593408605, 38016083, 3634488961, 3889429448,
   568446438, 3275163606, 4107603335, 1163531501, 2850285829, 4243563512,
   1735328473, 2368359562, 4294588738, 2272392833, 1839030562, 4259657740,
   2763975236, 1272893353, 4139469664, 3200236656, 681279174, 3936430074,
   3572445317, 76029189, 3654602809, 3873151461, 530742520, 3299628645,
   4096336452, 1126891415, 2878612391, 4237533241, 1700485571, 2399980690,
   4293915773, 2240044497, 1873313359, 4264355552, 2734768916, 1309151649,
   4149444226, 3174756917, 718787259, 3951481745]

/-- Per-round left-rotation amounts. -/
def md5S : List ℕ :=
  [7, 12, 17, 22, 7, 12, 17, 22, 7, 12, 17, 22, 7, 12, 17, 22,
   5, 9, 14, 20, 5, 9, 14, 20, 5, 9, 14, 20, 5, 9, 14, 20,
   4, 11, 16, 23, 4, 11, 16, 23, 4, 11, 16, 23, 4, 11, 16, 23,
   6, 10, 15, 21, 6, 10, 15, 21, 6, 10, 15, 21, 6, 10, 15, 21]

/-- Round function and message-word index for round i. -/
def md5FG (i b c d : ℕ) : ℕ × ℕ :=
  if i < 16 then ((b &&& c) ||| (not32 b &&& d), i)
  else if i < 32 then ((d &&& b) ||| (not32 d &&& c), (5 * i + 1) % 16)
  else if i < 48 then (b ^^^ c ^^^ d, (3 * i + 5) % 16)
  else (c ^^^ (b ||| not32 d), (7 * i) % 16)

/-- Little-endian 32 bit word g of a 64 byte chunk. -/
def chunkWord (chunk : List ℕ) (g : ℕ) : ℕ :=
  chunk.getD (4 * g) 0 + 256 * chunk.getD (4 * g + 1) 0 +
    65536 * chunk.getD (4 * g + 2) 0 + 16777216 * chunk.getD (4 * g + 3) 0

structure MD5Words where
  a : ℕ
  b : ℕ
  c : ℕ
  d : ℕ
deriving DecidableEq, Repr

def md5Round (chunk : List ℕ) (st : MD5Words) (i : ℕ) : MD5Words :=
  let fg := md5FG i st.b st.c st.d
  let f := (fg.1 + st.a + md5K.getD i 0 + chunkWord chunk fg.2) % MASK32
  ⟨st.d, (st.b + rotl32 f (md5S.getD i 0)) % MASK32, st.b, st.c⟩

def md5ProcessChunk (st : MD5Words) (chunk : List ℕ) : MD5Words :=
  let r := (List.range 64).foldl (md5Round chunk) st
  ⟨(st.a + r.a) % MASK32, (st.b + r.b) % MASK32,
   (st.c + r.c) % MASK32, (st.d + r.d) % MASK32⟩

/-- Merkle-Damgard padding: 0x80, zeros to 56 mod 64, then the bit length
as a 64 bit little-endian quantity. -/
def md5Pad (msg : List ℕ) : List ℕ :=
  let len := msg.length
  let z := (120 - (len + 1) % 64) % 64
  let bitLen := len * 8 % 2 ^ 64
  msg ++ [128] ++ List.replicate z 0 ++
    (List.range 8).map (fun j => bitLen / 2 ^ (8 * j) % 256)

def chunks64 (l : List ℕ) : List (List ℕ) :=
  if l = [] then [] else l.take 64 :: chunks64 (l.drop 64)
termination_by l.length
decreasing_by
  simp only [List.length_drop]
  cases l with
  | nil => simp_all
  | cons x xs => simp only [List.length_cons]; omega

def md5Init : MD5Words := ⟨1732584193, 4023233417, 2562383102, 271733878⟩

def md5Digest (msg : List ℕ) : MD5Words :=
  (chunks64 (md5Pad msg)).foldl md5ProcessChunk md5Init

def hexDigitChar (d : ℕ) : Char :=
  match d with
  | 0 => '0' | 1 => '1' | 2 => '2' | 3 => '3' | 4 => '4'
  | 5 => '5' | 6 => '6' | 7 => '7' | 8 => '8' | 9 => '9'
  | 10 => 'a' | 11 => 'b' | 12 => 'c' | 13 => 'd' | 14 => 'e'
  | _ => 'f'

def byteHex (b : ℕ) : List Char := [hexDigitChar (b / 16 % 16), hexDigitChar (b % 16)]

/-- Hex rendering of one word of the digest, little-endian byte order. -/
def wordLEHex (w : ℕ) : List Char :=
  byteHex (w % 256) ++ byteHex (w / 256 % 256) ++
    byteHex (w / 65536 % 256) ++ byteHex (w / 16777216 % 256)

/-- Embedding of hashlib.md5(data).hexdigest(). -/
def md5Hex (msg : List ℕ) : String :=
  let d := md5Digest msg
  String.mk (wordLEHex d.a ++ wordLEHex d.b ++ wordLEHex d.c ++ wordLEHex d.d)

/-- Embedding of str.encode (utf-8 bytes of a string). -/
def utf8Bytes (s : String) : List ℕ := s.toUTF8.toList.map (fun b => b.toNat)

/-- The digest as one number below 2 ^ 128, used for the range argument. -/
def packWords (w : MD5Words) : ℕ :=
  w.a + MASK32 * (w.b + MASK32 * (w.c + MASK32 * w.d))

/-- Key data of TranscodingService._get_cache_key (transcoding.py lines
40 to 43). -/
def transKeyData (pathStr mtimeRepr : String) (size : ℕ) : String :=
  pathStr ++ ":" ++ mtimeRepr ++ ":" ++ natDecimal size

def transCacheKey (pathStr mtimeRepr : String) (size : ℕ) : String :=
  md5Hex (utf8Bytes (transKeyData pathStr mtimeRepr size))

/-- Key data of ThumbnailService._get_cache_key (thumbnails.py lines
32 to 35). -/
def thumbKeyData (pathStr mtimeRepr : String) (size : ℕ) (variant : String) :
    String :=
  pathStr ++ ":" ++ mtimeRepr ++ ":" ++ natDecimal size ++ ":" ++ variant

def thumbCacheKey (pathStr mtimeRepr : String) (size : ℕ) (variant : String) :
    String :=
  md5Hex (utf8Bytes (thumbKeyData pathStr mtimeRepr size variant))

/-! # Theorems -/

/-! ## Eviction lemmas -/

lemma totalSize_nil : totalSize [] = 0 := rfl

lemma totalSize_cons (f : CacheFile) (l : List CacheFile) :
    totalSize (f :: l) = f.size + totalSize l := by
  simp [totalSize]

lemma totalSize_sortByAtime (fs : List CacheFile) :
    totalSize (sortByAtime fs) = totalSize fs := by
  exact ((List.perm_insertionSort _ fs).map CacheFile.size).sum_eq

lemma evictLoop_spec (bound : ℕ) (l : List CacheFile) :
    (evictLoop bound l (totalSize l)).1 ++ (evictLoop bound l (totalSize l)).2 = l ∧
    totalSize (evictLoop bound l (totalSize l)).2 ≤ bound ∧
    ∀ j < (evictLoop bound l (totalSize l)).1.length,
      bound < totalSize (l.drop j) := by
  induction l with
  | nil => simp [evictLoop, totalSize]
  | cons f rest ih =>
    by_cases h : totalSize (f :: rest) ≤ bound
    · simp [evictLoop, h]
    · have harith : totalSize (f :: rest) - f.size = totalSize rest := by
        simp [totalSize_cons]
      simp only [evictLoop, if_neg h, harith]
      refine ⟨by simp [ih.1], ih.2.1, ?_⟩
      intro j hj
      cases j with
      | zero => simpa using Nat.lt_of_not_le h
      | succ j =>
        simp only [List.drop_succ_cons]
        exact ih.2.2 j (by simpa using hj)

/-- Claim C5: for every size bound B > 0 and cache contents whose total
size exceeds B, after _evict_if_needed runs the total size is at most B,
and the removed files are exactly a minimal oldest-access-time group: the
shortest prefix of the access-time-sorted file list whose removal brings
the total within the bound; with bound 0 eviction removes nothing. -/
theorem claim_C5 (bound : ℕ) (fs : List CacheFile) :
    (evictIfNeeded 0 fs = fs ∧ evictedFiles 0 fs = []) ∧
    (bound ≠ 0 → totalSize (evictIfNeeded bound fs) ≤ bound) ∧
    (bound ≠ 0 → bound < totalSize fs →
      ∃ k, evictedFiles bound fs = (sortByAtime fs).take k ∧
        evictIfNeeded bound fs = (sortByAtime fs).drop k ∧
        (∀ f ∈ evictedFiles bound fs, ∀ g ∈ evictIfNeeded bound fs,
          f.atime ≤ g.atime) ∧
        ∀ j < k, bound < totalSize ((sortByAtime fs).drop j)) := by
  have hperm := totalSize_sortByAtime fs
  refine ⟨⟨by simp [evictIfNeeded], by simp [evictedFiles]⟩, ?_, ?_⟩
  · intro hb
    by_cases hfs : fs = []
    · simp [evictIfNeeded, hb, hfs, totalSize]
    · by_cases hts : totalSize fs ≤ bound
      · simp [evictIfNeeded, hb, hfs, hts]
      · have hspec := evictLoop_spec bound (sortByAtime fs)
        rw [hperm] at hspec
        simpa [evictIfNeeded, hb, hfs, hts] using hspec.2.1
  · intro hb hlt
    have hfs : fs ≠ [] := by
      intro hnil
      rw [hnil] at hlt
      simp [totalSize] at hlt
    have hts : ¬ totalSize fs ≤ bound := Nat.not_le.mpr hlt
    have hspec := evictLoop_spec bound (sortByAtime fs)
    rw [hperm] at hspec
    have heq : evictIfNeeded bound fs =
        (evictLoop bound (sortByAtime fs) (totalSize fs)).2 := by
      simp [evictIfNeeded, hb, hfs, hts]
    have heq2 : evictedFiles bound fs =
        (evictLoop bound (sortByAtime fs) (totalSize fs)).1 := by
      simp [evictedFiles, hb, hfs, hts]
    obtain ⟨hsplit, hle, hmin⟩ := hspec
    set L := sortByAtime fs with hLdef
    set A := (evictLoop bound L (totalSize fs)).1 with hAdef
    set B := (evictLoop bound L (totalSize fs)).2 with hBdef
    have htake : L.take A.length = A := by
      rw [← hsplit]
      exact List.take_left A B
    have hdrop : L.drop A.length = B := by
      rw [← hsplit]
      exact List.drop_left A B
    refine ⟨A.length, ?_, ?_, ?_, hmin⟩
    · rw [heq2, htake]
    · rw [heq, hdrop]
    · intro f hf g hg
      rw [heq2, ← htake] at hf
      rw [heq, ← hdrop] at hg
      have hsorted := List.sorted_insertionSort
        (fun a b => a.atime ≤ b.atime) fs
      exact hsorted.rel_of_mem_take_of_mem_drop hf hg

/-- Witness for claim C5: bound 8, three files of size 4 with distinct
access times; total 12 exceeds 8, so eviction removes the single oldest
file and the bound holds afterwards. -/
theorem claim_C5_witness :
    totalSize (evictIfNeeded 8 [⟨"a", 4, 5⟩, ⟨"b", 4, 1⟩, ⟨"c", 4, 3⟩]) ≤ 8 ∧
    ∃ k, evictedFiles 8 [⟨"a", 4, 5⟩, ⟨"b", 4, 1⟩, ⟨"c", 4, 3⟩] =
        (sortByAtime [⟨"a", 4, 5⟩, ⟨"b", 4, 1⟩, ⟨"c", 4, 3⟩]).take k ∧
      evictIfNeeded 8 [⟨"a", 4, 5⟩, ⟨"b", 4, 1⟩, ⟨"c", 4, 3⟩] =
        (sortByAtime [⟨"a", 4, 5⟩, ⟨"b", 4, 1⟩, ⟨"c", 4, 3⟩]).drop k ∧
      (∀ f ∈ evictedFiles 8 [⟨"a", 4, 5⟩, ⟨"b", 4, 1⟩, ⟨"c", 4, 3⟩],
        ∀ g ∈ evictIfNeeded 8 [⟨"a", 4, 5⟩, ⟨"b", 4, 1⟩, ⟨"c", 4, 3⟩],
          f.atime ≤ g.atime) ∧
      ∀ j < k, 8 < totalSize
        ((sortByAtime [⟨"a", 4, 5⟩, ⟨"b", 4, 1⟩, ⟨"c", 4, 3⟩]).drop j) :=
  ⟨(claim_C5 8 _).2.1 (by decide),
   (claim_C5 8 _).2.2 (by decide) (by decide)⟩

/-! ## Classification (claim C6) -/

/-- Claim C6: video h264 with audio aac classifies as remux; video mpeg4
with audio pcm classifies as transcode; a failed probe classifies as
transcode; absent audio with any browser-native video codec classifies as
remux. -/
theorem claim_C6 :
    classifyProbe (some ⟨some "h264", some "aac"⟩) = .remux ∧
    classifyProbe (some ⟨some "mpeg4", some "pcm"⟩) = .transcode ∧
    classifyProbe none = .transcode ∧
    ∀ v ∈ BROWSER_VIDEO_CODECS, classifyProbe (some ⟨some v, none⟩) = .remux := by
  refine ⟨by decide, by decide, by decide, ?_⟩
  intro v hv
  fin_cases hv <;> decide

/-- Witness for claim C6 at the concrete codec h264. -/
theorem claim_C6_witness :
    "h264" ∈ BROWSER_VIDEO_CODECS ∧
    classifyProbe (some ⟨some "h264", none⟩) = .remux :=
  ⟨by decide, claim_C6.2.2.2 "h264" (by decide)⟩

/-! ## Cache keys (claim C7)

Determinism of the key is definitional: the key is a pure function of
the path, mtime rendering, size (and size variant).  Sensitivity cannot
hold at the digest level over all sizes: md5 has a finite range, so by
pigeonhole there exist two sizes with equal keys (the counterexample
below); it does hold at the level of the hash input string, proved by
injectivity of the key data in the size and mtime fields. -/

lemma digitVal_digitChar (d : ℕ) (h : d < 10) : digitVal (digitChar d) = d := by
  interval_cases d <;> rfl

lemma decValue_append_digit (l : List Char) (c : Char) :
    decValue (l ++ [c]) = 10 * decValue l + digitVal c := by
  simp [decValue, List.foldl_append]

lemma decValue_natDecimalCore :
    ∀ fuel n, n ≤ fuel → decValue (natDecimalCore fuel n) = n := by
  intro fuel
  induction fuel with
  | zero =>
    intro n hn
    interval_cases n
    rfl
  | succ fuel ih =>
    intro n hn
    by_cases h0 : n = 0
    · subst h0
      rfl
    · have hdiv : n / 10 ≤ fuel := by
        have := Nat.div_lt_self (Nat.pos_of_ne_zero h0) (by norm_num : 1 < 10)
        omega
      rw [natDecimalCore, if_neg h0, decValue_append_digit,
        digitVal_digitChar _ (Nat.mod_lt n (by norm_num)), ih (n / 10) hdiv]
      exact Nat.div_add_mod n 10

lemma natDecimal_inj {m n : ℕ} (h : natDecimal m = natDecimal n) : m = n := by
  have hd := congrArg String.data h
  by_cases hm : m = 0 <;> by_cases hn : n = 0
  · omega
  · exfalso
    simp only [natDecimal, if_pos hm, if_neg hn] at hd
    have h2 := decValue_natDecimalCore n n le_rfl
    rw [← hd] at h2
    exact hn (by simpa [decValue, digitVal] using h2.symm)
  · exfalso
    simp only [natDecimal, if_neg hm, if_pos hn] at hd
    have h2 := decValue_natDecimalCore m m le_rfl
    rw [hd] at h2
    exact hm (by simpa [decValue, digitVal] using h2.symm)
  · simp only [natDecimal, if_neg hm, if_neg hn] at hd
    have h1 := decValue_natDecimalCore m m le_rfl
    have h2 := decValue_natDecimalCore n n le_rfl
    rw [hd] at h1
    omega

lemma string_data_inj {s t : String} (h : s.data = t.data) : s = t := by
  cases s
  cases t
  exact congrArg String.mk h

lemma transKeyData_size_inj (p m : String) {s s2 : ℕ} (h : s ≠ s2) :
    transKeyData p m s ≠ transKeyData p m s2 := by
  intro heq
  apply h
  apply natDecimal_inj
  have hd := congrArg String.data heq
  simp only [transKeyData, String.data_append, List.append_assoc] at hd
  exact string_data_inj (List.append_cancel_left
    (List.append_cancel_left (List.append_cancel_left
      (List.append_cancel_left hd))))

lemma transKeyData_mtime_inj (p : String) {m m2 : String} (s : ℕ)
    (h : m ≠ m2) : transKeyData p m s ≠ transKeyData p m2 s := by
  intro heq
  apply h
  have hd := congrArg String.data heq
  simp only [transKeyData, String.data_append, List.append_assoc] at hd
  exact string_data_inj (List.append_cancel_right
    (List.append_cancel_left (List.append_cancel_left hd)))

lemma thumbKeyData_size_inj (p m v : String) {s s2 : ℕ} (h : s ≠ s2) :
    thumbKeyData p m s v ≠ thumbKeyData p m s2 v := by
  intro heq
  apply h
  apply natDecimal_inj
  have hd := congrArg String.data heq
  simp only [thumbKeyData, String.data_append, List.append_assoc] at hd
  exact string_data_inj (List.append_cancel_right
    (List.append_cancel_left (List.append_cancel_left
      (List.append_cancel_left (List.append_cancel_left hd)))))

lemma thumbKeyData_mtime_inj (p v : String) {m m2 : String} (s : ℕ)
    (h : m ≠ m2) : thumbKeyData p m s v ≠ thumbKeyData p m2 s v := by
  intro heq
  apply h
  have hd := congrArg String.data heq
  simp only [thumbKeyData, String.data_append, List.append_assoc] at hd
  exact string_data_inj (List.append_cancel_right
    (List.append_cancel_left (List.append_cancel_left hd)))

lemma MASK32_pos : 0 < MASK32 := by norm_num [MASK32]

/-- Bounds of one compression step: every output word is reduced mod
2 ^ 32. -/
lemma md5ProcessChunk_bounds (st : MD5Words) (chunk : List ℕ) :
    (md5ProcessChunk st chunk).a < MASK32 ∧
    (md5ProcessChunk st chunk).b < MASK32 ∧
    (md5ProcessChunk st chunk).c < MASK32 ∧
    (md5ProcessChunk st chunk).d < MASK32 :=
  ⟨Nat.mod_lt _ MASK32_pos, Nat.mod_lt _ MASK32_pos,
   Nat.mod_lt _ MASK32_pos, Nat.mod_lt _ MASK32_pos⟩

lemma foldl_chunks_bounds :
    ∀ (cs : List (List ℕ)) (st : MD5Words),
      st.a < MASK32 ∧ st.b < MASK32 ∧ st.c < MASK32 ∧ st.d < MASK32 →
      (cs.foldl md5ProcessChunk st).a < MASK32 ∧
      (cs.foldl md5ProcessChunk st).b < MASK32 ∧
      (cs.foldl md5ProcessChunk st).c < MASK32 ∧
      (cs.foldl md5ProcessChunk st).d < MASK32 := by
  intro cs
  induction cs with
  | nil => intro st h; exact h
  | cons ch cs ih => intro st _; exact ih _ (md5ProcessChunk_bounds st ch)

lemma md5Digest_bounds (msg : List ℕ) :
    (md5Digest msg).a < MASK32 ∧ (md5Digest msg).b < MASK32 ∧
    (md5Digest msg).c < MASK32 ∧ (md5Digest msg).d < MASK32 :=
  foldl_chunks_bounds _ md5Init (by norm_num [md5Init, MASK32])

lemma pack_step {a x M K : ℕ} (ha : a < M) (hx : x < K) :
    a + M * x < M * K := by
  calc a + M * x < M + M * x := by omega
    _ = M * (x + 1) := by ring
    _ ≤ M * K := Nat.mul_le_mul_left M hx

lemma packWords_lt (w : MD5Words)
    (h : w.a < MASK32 ∧ w.b < MASK32 ∧ w.c < MASK32 ∧ w.d < MASK32) :
    packWords w < MASK32 ^ 4 := by
  obtain ⟨ha, hb, hc, hd⟩ := h
  have h1 : w.c + MASK32 * w.d < MASK32 * MASK32 := pack_step hc hd
  have h2 : w.b + MASK32 * (w.c + MASK32 * w.d) <
      MASK32 * (MASK32 * MASK32) := pack_step hb h1
  have h3 : w.a + MASK32 * (w.b + MASK32 * (w.c + MASK32 * w.d)) <
      MASK32 * (MASK32 * (MASK32 * MASK32)) := pack_step ha h2
  calc packWords w < MASK32 * (MASK32 * (MASK32 * MASK32)) := h3
    _ = MASK32 ^ 4 := by ring

lemma packWords_inj {w w2 : MD5Words}
    (h : w.a < MASK32 ∧ w.b < MASK32 ∧ w.c < MASK32 ∧ w.d < MASK32)
    (h2 : w2.a < MASK32 ∧ w2.b < MASK32 ∧ w2.c < MASK32 ∧ w2.d < MASK32)
    (heq : packWords w = packWords w2) : w = w2 := by
  obtain ⟨a, b, c, d⟩ := w
  obtain ⟨a2, b2, c2, d2⟩ := w2
  obtain ⟨ha, hb, hc, hd⟩ := h
  obtain ⟨ha2, hb2, hc2, hd2⟩ := h2
  simp only [packWords] at heq
  simp only at ha hb hc hd ha2 hb2 hc2 hd2
  have haa : a = a2 := by
    have h1 := congrArg (fun x => x % MASK32) heq
    simp only [Nat.add_mul_mod_self_left] at h1
    rwa [Nat.mod_eq_of_lt ha, Nat.mod_eq_of_lt ha2] at h1
  have hrest : b + MASK32 * (c + MASK32 * d) =
      b2 + MASK32 * (c2 + MASK32 * d2) := by
    have h1 := congrArg (fun x => x / MASK32) heq
    simp only [] at h1
    rw [Nat.add_mul_div_left _ _ MASK32_pos, Nat.add_mul_div_left _ _ MASK32_pos,
      Nat.div_eq_of_lt ha, Nat.div_eq_of_lt ha2] at h1
    simpa using h1
  have hbb : b = b2 := by
    have h1 := congrArg (fun x => x % MASK32) hrest
    simp only [Nat.add_mul_mod_self_left] at h1
    rwa [Nat.mod_eq_of_lt hb, Nat.mod_eq_of_lt hb2] at h1
  have hrest2 : c + MASK32 * d = c2 + MASK32 * d2 := by
    have h1 := congrArg (fun x => x / MASK32) hrest
    simp only [] at h1
    rw [Nat.add_mul_div_left _ _ MASK32_pos, Nat.add_mul_div_left _ _ MASK32_pos,
      Nat.div_eq_of_lt hb, Nat.div_eq_of_lt hb2] at h1
    simpa using h1
  have hcc : c = c2 := by
    have h1 := congrArg (fun x => x % MASK32) hrest2
    simp only [Nat.add_mul_mod_self_left] at h1
    rwa [Nat.mod_eq_of_lt hc, Nat.mod_eq_of_lt hc2] at h1
  have hdd : d = d2 := by
    have h1 := congrArg (fun x => x / MASK32) hrest2
    simp only [] at h1
    rw [Nat.add_mul_div_left _ _ MASK32_pos, Nat.add_mul_div_left _ _ MASK32_pos,
      Nat.div_eq_of_lt hc, Nat.div_eq_of_lt hc2] at h1
    simpa using h1
  simp [haa, hbb, hcc, hdd]

/-- Counterexample to claim C7 as stated: md5 has at most 2 ^ 128 digest
values while st_size ranges over all naturals, so for a fixed path and
mtime there exist two distinct sizes whose cache keys coincide; a stale
artifact keyed by the one stat would be returned for the other. -/
theorem claim_C7_counterexample :
    ∃ s1 s2 : ℕ, s1 ≠ s2 ∧
      transCacheKey "/data/v.mkv" "123.0" s1 =
        transCacheKey "/data/v.mkv" "123.0" s2 := by
  have hpig := Finite.exists_ne_map_eq_of_infinite
    (fun s : ℕ => (⟨packWords (md5Digest (utf8Bytes
      (transKeyData "/data/v.mkv" "123.0" s))),
      packWords_lt _ (md5Digest_bounds _)⟩ : Fin (MASK32 ^ 4)))
  obtain ⟨s1, s2, hne, hfeq⟩ := hpig
  refine ⟨s1, s2, hne, ?_⟩
  have hpack : packWords (md5Digest (utf8Bytes
      (transKeyData "/data/v.mkv" "123.0" s1))) =
      packWords (md5Digest (utf8Bytes
        (transKeyData "/data/v.mkv" "123.0" s2))) :=
    congrArg Fin.val hfeq
  have hdig := packWords_inj (md5Digest_bounds _) (md5Digest_bounds _) hpack
  show md5Hex (utf8Bytes (transKeyData "/data/v.mkv" "123.0" s1)) =
    md5Hex (utf8Bytes (transKeyData "/data/v.mkv" "123.0" s2))
  show String.mk (wordLEHex (md5Digest (utf8Bytes
      (transKeyData "/data/v.mkv" "123.0" s1))).a ++ _ ++ _ ++ _) = _
  rw [hdig]
  rfl

/-- Claim C7 (amended): the cache key is the md5 hex digest of the key
data string, a pure function of (path, mtime, size, variant), so
determinism is definitional; changing the size or the mtime rendering
changes the key data string fed to md5 (for both the transcode and the
thumbnail key), hence the cache key whenever md5 does not collide on the
two key data strings. -/
theorem claim_C7 :
    (∀ p m s, transCacheKey p m s = md5Hex (utf8Bytes (transKeyData p m s))) ∧
    (∀ p m v s, thumbCacheKey p m s v =
      md5Hex (utf8Bytes (thumbKeyData p m s v))) ∧
    (∀ p m s s2, s ≠ s2 → transKeyData p m s ≠ transKeyData p m s2) ∧
    (∀ p m m2 s, m ≠ m2 → transKeyData p m s ≠ transKeyData p m2 s) ∧
    (∀ p m v s s2, s ≠ s2 → thumbKeyData p m s v ≠ thumbKeyData p m s2 v) ∧
    (∀ p m m2 v s, m ≠ m2 → thumbKeyData p m s v ≠ thumbKeyData p m2 s v) :=
  ⟨fun _ _ _ => rfl, fun _ _ _ _ => rfl,
   fun p m _ _ h => transKeyData_size_inj p m h,
   fun p _ _ s h => transKeyData_mtime_inj p s h,
   fun p m v _ _ h => thumbKeyData_size_inj p m v h,
   fun p _ _ v s h => thumbKeyData_mtime_inj p v s h⟩

/-- Witness for claim C7 at concrete stats: size 5 versus 7 and mtime
123.0 versus 124.0 give distinct key data strings. -/
theorem claim_C7_witness :
    transKeyData "/data/v.mkv" "123.0" 5 ≠ transKeyData "/data/v.mkv" "123.0" 7 ∧
    transKeyData "/data/v.mkv" "123.0" 5 ≠ transKeyData "/data/v.mkv" "124.0" 5 ∧
    thumbKeyData "/p.jpg" "9.5" 5 "thumb" ≠ thumbKeyData "/p.jpg" "9.5" 7 "thumb" ∧
    thumbKeyData "/p.jpg" "9.5" 5 "thumb" ≠ thumbKeyData "/p.jpg" "9.1" 5 "thumb" :=
  ⟨claim_C7.2.2.1 "/data/v.mkv" "123.0" 5 7 (by decide),
   claim_C7.2.2.2.1 "/data/v.mkv" "123.0" "124.0" 5 (by decide),
   claim_C7.2.2.2.2.1 "/p.jpg" "9.5" "thumb" 5 7 (by decide),
   claim_C7.2.2.2.2.2 "/p.jpg" "9.5" "9.1" "thumb" 5 (by decide)⟩

/-! ## Path parsing lemmas (for claims C3 and C10) -/

lemma splitChar_ne_nil (sep : Char) (l : List Char) : splitChar sep l ≠ [] := by
  cases l with
  | nil => simp [splitChar]
  | cons c rest =>
    simp only [splitChar]
    rcases h : splitChar sep rest with _ | ⟨g, gs⟩
    · simp
    · by_cases hc : c = sep <;> simp [hc]

lemma splitChar_append (sep : Char) (xs ys : List Char) :
    splitChar sep (xs ++ sep :: ys) = splitChar sep xs ++ splitChar sep ys := by
  induction xs with
  | nil =>
    rcases h : splitChar sep ys with _ | ⟨g, gs⟩
    · exact absurd h (splitChar_ne_nil sep ys)
    · simp [splitChar, h]
  | cons c rest ih =>
    rcases h : splitChar sep rest with _ | ⟨g, gs⟩
    · exact absurd h (splitChar_ne_nil sep rest)
    · show splitChar sep (c :: (rest ++ sep :: ys)) = _
      rw [splitChar, ih, h, splitChar, h]
      by_cases hc : c = sep <;> simp [hc]

lemma splitChar_no_sep (sep : Char) (l : List Char) (h : sep ∉ l) :
    splitChar sep l = [l] := by
  induction l with
  | nil => rfl
  | cons c rest ih =>
    have hc : c ≠ sep := fun hc => h (hc ▸ List.mem_cons_self c rest)
    have hrest : sep ∉ rest := fun hm => h (List.mem_cons_of_mem c hm)
    simp [splitChar, ih hrest, hc]

lemma string_mk_data (s : String) : String.mk s.data = s := rfl

lemma charParts_cons_sep (l : List Char) : charParts ('/' :: l) = charParts l := by
  simp only [charParts, splitChar]
  rcases h : splitChar '/' l with _ | ⟨g, gs⟩
  · exact absurd h (splitChar_ne_nil _ l)
  · simp

lemma charParts_append_sep (xs ys : List Char) :
    charParts (xs ++ '/' :: ys) = charParts xs ++ charParts ys := by
  simp [charParts, splitChar_append]

lemma charParts_wf (c : String) (h : wfComp c) : charParts c.data = [c] := by
  obtain ⟨h1, h2, _, h4⟩ := h
  have hne : c.data ≠ [] := by
    intro hd
    exact h1 (by cases c; simp_all)
  have hnd : c.data ≠ ['.'] := by
    intro hd
    apply h2
    cases c
    simp_all
  rw [charParts, splitChar_no_sep _ _ h4]
  simp [hne, hnd, string_mk_data]

lemma joinAbs_cons_data (c : String) (rest : List String) :
    (joinAbs (c :: rest)).data = '/' :: (c.data ++ (joinAbs rest).data) := by
  simp [joinAbs, String.data_append]

lemma joinAbs_append (a b : List String) :
    joinAbs (a ++ b) = joinAbs a ++ joinAbs b := by
  induction a with
  | nil =>
    apply congrArg String.mk ∘ id
    simp [joinAbs]
  | cons c rest ih =>
    have : (joinAbs ((c :: rest) ++ b)).data = (joinAbs (c :: rest) ++ joinAbs b).data := by
      simp [joinAbs_cons_data, String.data_append, ih]
    calc joinAbs ((c :: rest) ++ b) = String.mk (joinAbs ((c :: rest) ++ b)).data := rfl
      _ = String.mk (joinAbs (c :: rest) ++ joinAbs b).data := by rw [this]
      _ = joinAbs (c :: rest) ++ joinAbs b := rfl

lemma charParts_joinAbs (r : List String) (h : wfComps r) :
    charParts (joinAbs r).data = r := by
  induction r with
  | nil => rfl
  | cons c rest ih =>
    have hc := h c (List.mem_cons_self c rest)
    have hr : wfComps rest := fun x hx => h x (List.mem_cons_of_mem c hx)
    rw [joinAbs_cons_data, charParts_cons_sep]
    cases rest with
    | nil =>
      show charParts (c.data ++ (joinAbs []).data) = [c]
      rw [show (joinAbs []).data = [] from rfl, List.append_nil]
      exact charParts_wf c hc
    | cons c2 r2 =>
      rw [joinAbs_cons_data, charParts_append_sep, charParts_wf c hc]
      have h2 := ih hr
      rw [joinAbs_cons_data, charParts_cons_sep] at h2
      rw [h2]
      rfl

lemma pathParts_compsToStr (r : List String) (h : wfComps r) :
    pathParts (compsToStr r) = r := by
  cases r with
  | nil => rfl
  | cons c rest =>
    simp only [compsToStr, if_neg (by simp : ¬(c :: rest = []))]
    exact charParts_joinAbs (c :: rest) h

lemma joinAbs_cons_ne_root (c : String) (rest : List String) (hc : wfComp c) :
    joinAbs (c :: rest) ≠ "/" := by
  intro heq
  have := congrArg String.data heq
  rw [joinAbs_cons_data] at this
  rw [show ("/" : String).data = ['/'] from rfl] at this
  simp at this
  exact hc.1 (by cases c; simp_all)

lemma pathParts_joinPath (r : List String) (h : wfComps r) (p : String) :
    pathParts (joinPath (compsToStr r) p) = r ++ pathParts p := by
  cases r with
  | nil =>
    show pathParts (joinPath "/" p) = pathParts p
    simp only [joinPath, if_pos rfl]
    show charParts (("/" ++ p).data) = charParts p.data
    rw [String.data_append]
    exact charParts_cons_sep p.data
  | cons c rest =>
    have hwc := h c (List.mem_cons_self c rest)
    have hne : compsToStr (c :: rest) ≠ "/" := by
      simp only [compsToStr, if_neg (by simp : ¬(c :: rest = []))]
      exact joinAbs_cons_ne_root c rest hwc
    simp only [joinPath, if_neg hne]
    show charParts ((compsToStr (c :: rest) ++ "/" ++ p).data) = _
    rw [String.data_append, String.data_append]
    rw [show ("/" : String).data = ['/'] from rfl]
    rw [List.append_assoc]
    show charParts ((compsToStr (c :: rest)).data ++ '/' :: p.data) = _
    rw [charParts_append_sep]
    have : charParts (compsToStr (c :: rest)).data = c :: rest :=
      pathParts_compsToStr (c :: rest) h
    rw [this]
    rfl

lemma pyStartsWith_compsToStr_append (r t : List String) (h : wfComps r) :
    pyStartsWith (compsToStr (r ++ t)) (compsToStr r) = true := by
  cases r with
  | nil =>
    cases t with
    | nil => decide
    | cons c tl =>
      simp only [List.nil_append, compsToStr,
        if_neg (by simp : ¬(c :: tl = []))]
      show (("/" : String).data.isPrefixOf (joinAbs (c :: tl)).data) = true
      rw [joinAbs_cons_data, show ("/" : String).data = ['/'] from rfl]
      simp [List.isPrefixOf]
  | cons c rest =>
    simp only [compsToStr, if_neg (by simp : ¬(c :: rest = [])),
      if_neg (by simp : ¬((c :: rest) ++ t = []))]
    rw [joinAbs_append]
    show ((joinAbs (c :: rest)).data.isPrefixOf
      (joinAbs (c :: rest) ++ joinAbs t).data) = true
    rw [String.data_append]
    exact List.isPrefixOf_iff_prefix.mpr ⟨(joinAbs t).data, rfl⟩

lemma resolveComps_no_dots (l : List String) (hl : ∀ c ∈ l, c ≠ "..") :
    ∀ acc rest, resolveComps acc (l ++ rest) = resolveComps (acc ++ l) rest := by
  induction l with
  | nil => simp [resolveComps]
  | cons c cl ih =>
    intro acc rest
    have hc : c ≠ ".." := hl c (List.mem_cons_self c cl)
    show resolveComps acc (c :: (cl ++ rest)) = _
    rw [resolveComps, if_neg hc,
      ih (fun x hx => hl x (List.mem_cons_of_mem c hx)) (acc ++ [c]) rest]
    simp

/-- Counterexample to claim C3 as stated: resolve of /etc/passwd does not
fail with PathTraversal; the leading slash is stripped and the path is
interpreted relative to the sandbox root, resolving successfully to the
in-sandbox path root/etc/passwd, in both services. -/
theorem claim_C3_counterexample :
    trashResolvePath "/data" "/etc/passwd" = .ok "/data/etc/passwd" ∧
    fsResolvePath [] "/data" "/etc/passwd" = .ok "/data/etc/passwd" ∧
    trashResolvePath "/data" "/etc/passwd" ≠ .error .pathTraversal := by
  refine ⟨by decide, by decide, by decide⟩

/-- Claim C3 (amended): for every well-formed sandbox root,
resolve(subdir/../file.txt) succeeds, stays within the root, and equals
resolve(file.txt); with root /data, resolve(../../etc/passwd) fails with
PathTraversal, while resolve(/etc/passwd) succeeds and returns the
in-sandbox path /data/etc/passwd (the leading slash is stripped), in the
trash service and in the filesystem service without mounts alike. -/
theorem claim_C3 (r : List String) (hwf : wfComps r) :
    (trashResolvePath (compsToStr r) "subdir/../file.txt" =
       .ok (compsToStr (r ++ ["file.txt"])) ∧
     trashResolvePath (compsToStr r) "file.txt" =
       .ok (compsToStr (r ++ ["file.txt"]))) ∧
    (∀ p, fsResolvePath [] (compsToStr r) p =
       trashResolvePath (compsToStr r) p) ∧
    (trashResolvePath "/data" "../../etc/passwd" = .error .pathTraversal ∧
     fsResolvePath [] "/data" "../../etc/passwd" = .error .pathTraversal) ∧
    (trashResolvePath "/data" "/etc/passwd" = .ok "/data/etc/passwd" ∧
     fsResolvePath [] "/data" "/etc/passwd" = .ok "/data/etc/passwd") := by
  have hnodots : ∀ c ∈ r, c ≠ ".." := fun c hc => (hwf c hc).2.2.1
  have hresolve : ∀ cand : String, pyStartsWith cand "/" = false →
      pathParts cand = ["subdir", "..", "file.txt"] ∨
      pathParts cand = ["file.txt"] →
      trashResolvePath (compsToStr r) cand =
        .ok (compsToStr (r ++ ["file.txt"])) := by
    intro cand hs hparts
    have hjoin := pathParts_joinPath r hwf cand
    have hnorm : normalizeAbs (joinPath (compsToStr r) cand) =
        compsToStr (r ++ ["file.txt"]) := by
      rw [normalizeAbs, hjoin]
      rcases hparts with hp | hp
      · rw [hp, resolveComps_no_dots r hnodots [] _]
        simp [resolveComps, List.dropLast_concat]
      · rw [hp, resolveComps_no_dots r hnodots [] _]
        simp [resolveComps]
    rw [trashResolvePath]
    simp only [hs, Bool.false_eq_true, if_false, hnorm]
    rw [if_pos (pyStartsWith_compsToStr_append r ["file.txt"] hwf)]
  refine ⟨⟨?_, ?_⟩, ?_, ⟨by decide, by decide⟩, ⟨by decide, by decide⟩⟩
  · exact hresolve "subdir/../file.txt" (by decide) (Or.inl (by decide))
  · exact hresolve "file.txt" (by decide) (Or.inr (by decide))
  · intro p
    rfl

/-- Witness for claim C3 at the concrete root /data. -/
theorem claim_C3_witness :
    trashResolvePath (compsToStr ["data"]) "subdir/../file.txt" =
      .ok (compsToStr (["data"] ++ ["file.txt"])) ∧
    trashResolvePath (compsToStr ["data"]) "file.txt" =
      .ok (compsToStr (["data"] ++ ["file.txt"])) :=
  (claim_C3 ["data"] (by decide)).1

/-! ## Relativization (claim C10) -/

/-- Counterexample to claim C10 as stated: with mount /mnt/usb configured
in the filesystem service, the path /mnt/usb2/f lies outside the mount
directory and outside the primary root /data, yet _get_relative_path
returns it unchanged rather than "/", because the mount test is a string
startswith test and /mnt/usb is a string prefix of /mnt/usb2/f. -/
theorem claim_C10_counterexample :
    (pathParts "/mnt/usb").isPrefixOf (pathParts "/mnt/usb2/f") = false ∧
    (pathParts "/data").isPrefixOf (pathParts "/mnt/usb2/f") = false ∧
    fsGetRelativePath ["/mnt/usb"] "/data" "/mnt/usb2/f" = "/mnt/usb2/f" ∧
    fsGetRelativePath ["/mnt/usb"] "/data" "/mnt/usb2/f" ≠ "/" := by
  refine ⟨by decide, by decide, by decide, by decide⟩

/-- Claim C10 (amended): relativize never fails; for every absolute path
that is not component-wise under the primary root and, in the filesystem
service, has no mount root as a string prefix, it returns "/", which is
also the value returned for the primary root itself. -/
theorem claim_C10 :
    (∀ rootStr absStr,
      (pathParts rootStr).isPrefixOf (pathParts absStr) = false →
      trashGetRelativePath rootStr absStr = "/") ∧
    (∀ rootStr, trashGetRelativePath rootStr rootStr = "/") ∧
    (∀ mounts rootStr absStr,
      (∀ m ∈ mounts, pyStartsWith absStr m = false) →
      (pathParts rootStr).isPrefixOf (pathParts absStr) = false →
      fsGetRelativePath mounts rootStr absStr = "/") ∧
    (∀ mounts rootStr,
      (∀ m ∈ mounts, pyStartsWith rootStr m = false) →
      fsGetRelativePath mounts rootStr rootStr = "/") := by
  have htrash : ∀ rootStr absStr,
      (pathParts rootStr).isPrefixOf (pathParts absStr) = false →
      trashGetRelativePath rootStr absStr = "/" := by
    intro rootStr absStr h
    rw [trashGetRelativePath, relCompsTo]
    simp [h]
  have hroot : ∀ rootStr, trashGetRelativePath rootStr rootStr = "/" := by
    intro rootStr
    rw [trashGetRelativePath, relCompsTo]
    rw [if_pos (List.isPrefixOf_iff_prefix.mpr (List.prefix_refl _))]
    simp
  have hfind : ∀ (mounts : List String) (absStr : String),
      (∀ m ∈ mounts, pyStartsWith absStr m = false) →
      mounts.find? (fun m => pyStartsWith absStr m) = none := by
    intro mounts absStr h
    exact List.find?_eq_none.mpr (fun m hm => by simp [h m hm])
  refine ⟨htrash, hroot, ?_, ?_⟩
  · intro mounts rootStr absStr hm h
    rw [fsGetRelativePath, hfind mounts absStr hm]
    exact htrash rootStr absStr h
  · intro mounts rootStr hm
    rw [fsGetRelativePath, hfind mounts rootStr hm]
    exact hroot rootStr

/-- Witness for claim C10 at concrete paths. -/
theorem claim_C10_witness :
    trashGetRelativePath "/data" "/somewhere/else" = "/" ∧
    trashGetRelativePath "/data" "/data" = "/" ∧
    fsGetRelativePath ["/mnt/usb"] "/data" "/opt/x" = "/" ∧
    fsGetRelativePath ["/mnt/usb"] "/data" "/data" = "/" :=
  ⟨claim_C10.1 "/data" "/somewhere/else" (by decide),
   claim_C10.2.1 "/data",
   claim_C10.2.2.1 ["/mnt/usb"] "/data" "/opt/x"
     (by intro m hm; fin_cases hm; decide) (by decide),
   claim_C10.2.2.2 ["/mnt/usb"] "/data"
     (by intro m hm; fin_cases hm; decide)⟩

/-! ## Atomic visibility (claim C2)

The claim asserts, for both producers, that the canonical cache path
never holds a partially written file.  The transcode path writes a
temporary name and renames, so the property holds for it; the thumbnail
path writes the final bytes directly at the canonical path, so a state
with a partially written canonical file is reachable there. -/

/-- Counterexample to claim C2 as stated: the thumbnail write path
reaches a state where the canonical cache path holds a partially written
file (a crash at that point leaves it there). -/
theorem claim_C2_counterexample :
    ∃ s, thumbReach s ∧ s.canonical = FileState.writing :=
  ⟨⟨FileState.writing, FileState.absent⟩,
    Relation.ReflTransGen.single (thumbWriteStep.writeBegin initFiles rfl),
    rfl⟩

/-- Claim C2 (amended): along the transcode producer write path, every
reachable state has the canonical cache path either absent or holding
the complete artifact, never a partial file; the thumbnail path has no
such guarantee. -/
theorem claim_C2 (s : ProducerFiles) (h : transReach s) :
    s.canonical = FileState.absent ∨ s.canonical = FileState.complete := by
  induction h with
  | refl => exact Or.inl rfl
  | tail _ hstep ih =>
    cases hstep with
    | tmpBegin hs => exact ih
    | tmpFinish hs => exact ih
    | renameIntoPlace hs => exact Or.inr rfl
    | cleanupTmp => exact ih

/-- Witness for claim C2 at the state reached by a successful transcode:
temporary write begun, finished, renamed into place. -/
theorem claim_C2_witness :
    transReach ⟨FileState.complete, FileState.absent⟩ ∧
    (FileState.complete = FileState.absent ∨
      FileState.complete = FileState.complete) := by
  have h1 : transWriteStep initFiles ⟨FileState.absent, FileState.writing⟩ :=
    transWriteStep.tmpBegin initFiles rfl
  have h2 : transWriteStep ⟨FileState.absent, FileState.writing⟩
      ⟨FileState.absent, FileState.complete⟩ :=
    transWriteStep.tmpFinish _ rfl
  have h3 : transWriteStep ⟨FileState.absent, FileState.complete⟩
      ⟨FileState.complete, FileState.absent⟩ :=
    transWriteStep.renameIntoPlace _ rfl
  have hr : transReach ⟨FileState.complete, FileState.absent⟩ :=
    Relation.ReflTransGen.tail
      (Relation.ReflTransGen.tail (Relation.ReflTransGen.single h1) h2) h3
  exact ⟨hr, claim_C2 _ hr⟩

/-! ## Trash manifest handling (claims C4, C8, C9) -/

lemma restore_foldlM_empty {α : Type} (rootStr : String)
    (files : List (String × α)) (ids : List String) :
    ids.foldlM (restoreOne rootStr) (⟨files, [], 0⟩ : TrashAcc α) =
      .ok ⟨files, [], 0⟩ := by
  induction ids with
  | nil => rfl
  | cons i rest ih =>
    have hone : restoreOne rootStr (⟨files, [], 0⟩ : TrashAcc α) i =
        .ok ⟨files, [], 0⟩ := rfl
    rw [List.foldlM_cons, hone]
    exact ih

/-- Claim C8 (amended): a manifest file whose content is corrupt
(unparseable) or of the wrong shape (not a list) is read as the empty
list, and trash operations proceed on it without any typed failure:
restore on such a state succeeds with count zero, and persisting the
batch overwrites the manifest with an empty list.  Corruption is
silently masked, not propagated. -/
theorem claim_C8 {α : Type} (files : List (String × α)) (ids : List String)
    (rootStr : String) (m : ManifestFile) (h : readManifest m = []) :
    readManifest m = [] ∧
    restoreTrash rootStr ⟨files, m⟩ ids = .ok (0, ⟨files, .entries []⟩) := by
  refine ⟨h, ?_⟩
  rw [restoreTrash]
  simp only [h]
  rw [restore_foldlM_empty]

/-- Counterexample to claim C8 as stated: a trash operation (restore) on
a corrupt manifest does not fail with a typed error; it succeeds, treats
the manifest as empty, and overwrites it. -/
theorem claim_C8_counterexample :
    restoreTrash (α := ℕ) "/data" ⟨[], .corrupt⟩ ["x"] =
      .ok (0, ⟨[], .entries []⟩) ∧
    restoreTrash (α := ℕ) "/data" ⟨[], .corrupt⟩ ["x"] ≠
      .error .pathTraversal := by
  refine ⟨by decide, by decide⟩

/-- Witness for claim C8 on a wrong-shaped manifest with one file. -/
theorem claim_C8_witness :
    readManifest .wrongShape = [] ∧
    restoreTrash "/data" ⟨[("/data/x.txt", (3 : ℕ))], .wrongShape⟩
        ["a", "b"] =
      .ok (0, ⟨[("/data/x.txt", 3)], .entries []⟩) :=
  claim_C8 [("/data/x.txt", 3)] ["a", "b"] "/data" .wrongShape rfl

/-- Claim C9: restore of an id with no manifest entry is a no-op counted
as zero (the manifest is rewritten unchanged); restore of an id whose
manifest entry exists but whose physical trash item is gone drops the
stale entry and also counts zero, leaving the files untouched. -/
theorem claim_C9 {α : Type} (rootStr : String) (st : TrashState α)
    (x : String) :
    ((readManifest st.manifest).find? (fun e => e.trash_name == x) = none →
      restoreTrash rootStr st [x] =
        .ok (0, ⟨st.files, .entries (readManifest st.manifest)⟩)) ∧
    (∀ e, (readManifest st.manifest).find? (fun e2 => e2.trash_name == x) =
        some e →
      fsExistsB st.files (trashDirStr rootStr ++ "/" ++ x) = false →
      restoreTrash rootStr st [x] =
        .ok (0, ⟨st.files, .entries ((readManifest st.manifest).filter
          (fun e2 => !(e2.trash_name == x)))⟩)) := by
  constructor
  · intro hfind
    rw [restoreTrash]
    have hone : restoreOne rootStr
        (⟨st.files, readManifest st.manifest, 0⟩ : TrashAcc α) x =
        .ok ⟨st.files, readManifest st.manifest, 0⟩ := by
      rw [restoreOne]
      simp only [hfind]
    rw [List.foldlM_cons, hone]
    rfl
  · intro e hfind hmiss
    rw [restoreTrash]
    have hone : restoreOne rootStr
        (⟨st.files, readManifest st.manifest, 0⟩ : TrashAcc α) x =
        .ok ⟨st.files, (readManifest st.manifest).filter
          (fun e2 => !(e2.trash_name == x)), 0⟩ := by
      rw [restoreOne]
      simp only [hfind, hmiss]
      rfl
    rw [List.foldlM_cons, hone]
    rfl

/-- Witness for claim C9: an unknown id is skipped; an id whose physical
item is missing loses its manifest entry with count zero. -/
theorem claim_C9_witness :
    restoreTrash (α := ℕ) "/data"
        ⟨[], .entries [⟨"1_b.txt", "/a", "1_b.txt", "t"⟩]⟩ ["zzz"] =
      .ok (0, ⟨[], .entries [⟨"1_b.txt", "/a", "1_b.txt", "t"⟩]⟩) ∧
    restoreTrash (α := ℕ) "/data"
        ⟨[], .entries [⟨"1_b.txt", "/a", "1_b.txt", "t"⟩]⟩ ["1_b.txt"] =
      .ok (0, ⟨[], .entries []⟩) :=
  ⟨(claim_C9 "/data" ⟨[], .entries [⟨"1_b.txt", "/a", "1_b.txt", "t"⟩]⟩
      "zzz").1 (by decide),
   (claim_C9 "/data" ⟨[], .entries [⟨"1_b.txt", "/a", "1_b.txt", "t"⟩]⟩
      "1_b.txt").2 ⟨"1_b.txt", "/a", "1_b.txt", "t"⟩ (by decide) (by decide)⟩

variable {α : Type} in
lemma moveOne_b (c : α) :
    moveOne "/data" 1000 "ts" (⟨[("/data/a/b.txt", c)], [], 0⟩ : TrashAcc α) "/a/b.txt" =
      .ok ⟨[("/data/.deleted_items/1000_b.txt", c)],
        [⟨"1000_b.txt", "/a/b.txt", "1000_b.txt", "ts"⟩], 1⟩ := by
  rw [moveOne, show trashResolvePath "/data" "/a/b.txt" = Except.ok "/data/a/b.txt" from rfl]
  simp only [show fsExistsB [("/data/a/b.txt", c)] "/data/a/b.txt" = true from rfl,
    show pyStartsWith "/data/a/b.txt" (trashDirStr "/data") = false from rfl,
    Bool.not_true, List.length_cons, List.length_nil]
  simp [show pathName "/data/a/b.txt" = "b.txt" from rfl,
    show freeTrashTimestamp [("/data/a/b.txt", c)] (trashDirStr "/data") "b.txt" 2 1000 = 1000 from rfl,
    show (natDecimal 1000 ++ "_" ++ "b.txt" : String) = "1000_b.txt" from rfl,
    show (trashDirStr "/data" ++ "/" ++ "1000_b.txt" : String) = "/data/.deleted_items/1000_b.txt" from rfl,
    show fsMove [("/data/a/b.txt", c)] "/data/a/b.txt" "/data/.deleted_items/1000_b.txt" =
      [("/data/.deleted_items/1000_b.txt", c)] from rfl,
    show trashGetRelativePath "/data" "/data/a/b.txt" = "/a/b.txt" from rfl]

variable {α : Type} in
lemma moveToTrash_b (c : α) :
    moveToTrash "/data" 1000 "ts"
        (⟨[("/data/a/b.txt", c)], .missing⟩ : TrashState α) ["/a/b.txt"] =
      .ok (1, ⟨[("/data/.deleted_items/1000_b.txt", c)],
        .entries [⟨"1000_b.txt", "/a/b.txt", "1000_b.txt", "ts"⟩]⟩) := by
  rw [moveToTrash, List.foldlM_cons]
  rw [show readManifest ManifestFile.missing = [] from rfl]
  rw [moveOne_b c]
  rfl

variable {α : Type} in
lemma restoreOne_b (c : α) :
    restoreOne "/data" (⟨[("/data/.deleted_items/1000_b.txt", c)],
        [⟨"1000_b.txt", "/a/b.txt", "1000_b.txt", "ts"⟩], 0⟩ : TrashAcc α) "1000_b.txt" =
      .ok ⟨[("/data/a/b.txt", c)], [], 1⟩ := by
  rw [restoreOne]
  rw [show ([⟨"1000_b.txt", "/a/b.txt", "1000_b.txt", "ts"⟩] : List TrashEntry).find?
      (fun e => e.trash_name == "1000_b.txt") =
      some ⟨"1000_b.txt", "/a/b.txt", "1000_b.txt", "ts"⟩ from rfl]
  simp only [show fsExistsB [("/data/.deleted_items/1000_b.txt", c)]
      (trashDirStr "/data" ++ "/" ++ "1000_b.txt") = true from rfl, Bool.not_true]
  rw [show trashResolvePath "/data" "/a/b.txt" = Except.ok "/data/a/b.txt" from rfl]
  simp [show fsExistsB [("/data/.deleted_items/1000_b.txt", c)] "/data/a/b.txt" = false from rfl,
    show fsMove [("/data/.deleted_items/1000_b.txt", c)]
      (trashDirStr "/data" ++ "/" ++ "1000_b.txt") "/data/a/b.txt" =
      [("/data/a/b.txt", c)] from rfl]

variable {α : Type} in
lemma restoreTrash_b (c : α) :
    restoreTrash "/data"
        (⟨[("/data/.deleted_items/1000_b.txt", c)],
          .entries [⟨"1000_b.txt", "/a/b.txt", "1000_b.txt", "ts"⟩]⟩ : TrashState α)
        ["1000_b.txt"] =
      .ok (1, ⟨[("/data/a/b.txt", c)], .entries []⟩) := by
  rw [restoreTrash, List.foldlM_cons]
  rw [show readManifest (ManifestFile.entries
    [⟨"1000_b.txt", "/a/b.txt", "1000_b.txt", "ts"⟩]) =
    [⟨"1000_b.txt", "/a/b.txt", "1000_b.txt", "ts"⟩] from rfl]
  rw [restoreOne_b c]
  rfl

variable {α : Type} in
lemma restoreOne_b2 (c c2 : α) :
    restoreOne "/data" (⟨[("/data/a/b.txt", c2), ("/data/.deleted_items/1000_b.txt", c)],
        [⟨"1000_b.txt", "/a/b.txt", "1000_b.txt", "ts"⟩], 0⟩ : TrashAcc α) "1000_b.txt" =
      .ok ⟨[("/data/a/b(1).txt", c), ("/data/a/b.txt", c2)], [], 1⟩ := by
  rw [restoreOne]
  rw [show ([⟨"1000_b.txt", "/a/b.txt", "1000_b.txt", "ts"⟩] : List TrashEntry).find?
      (fun e => e.trash_name == "1000_b.txt") =
      some ⟨"1000_b.txt", "/a/b.txt", "1000_b.txt", "ts"⟩ from rfl]
  simp only [show fsExistsB [("/data/a/b.txt", c2), ("/data/.deleted_items/1000_b.txt", c)]
      (trashDirStr "/data" ++ "/" ++ "1000_b.txt") = true from rfl, Bool.not_true]
  rw [show trashResolvePath "/data" "/a/b.txt" = Except.ok "/data/a/b.txt" from rfl]
  simp only [show fsExistsB [("/data/a/b.txt", c2), ("/data/.deleted_items/1000_b.txt", c)]
      "/data/a/b.txt" = true from rfl, List.length_cons, List.length_nil]
  simp [show pathName "/data/a/b.txt" = "b.txt" from rfl,
    show stemSuffix "b.txt" = ("b", ".txt") from rfl,
    show pathParent "/data/a/b.txt" = "/data/a" from rfl,
    show freeRestoreCounter [("/data/a/b.txt", c2), ("/data/.deleted_items/1000_b.txt", c)]
      "/data/a" "b" ".txt" 3 1 = 1 from rfl,
    show (natDecimal 1 : String) = "1" from rfl,
    show joinPath "/data/a" "b(1).txt" = "/data/a/b(1).txt" from rfl,
    show fsMove [("/data/a/b.txt", c2), ("/data/.deleted_items/1000_b.txt", c)]
      (trashDirStr "/data" ++ "/" ++ "1000_b.txt") "/data/a/b(1).txt" =
      [("/data/a/b(1).txt", c), ("/data/a/b.txt", c2)] from rfl]

variable {α : Type} in
lemma restoreTrash_b2 (c c2 : α) :
    restoreTrash "/data"
        (⟨[("/data/a/b.txt", c2), ("/data/.deleted_items/1000_b.txt", c)],
          .entries [⟨"1000_b.txt", "/a/b.txt", "1000_b.txt", "ts"⟩]⟩ : TrashState α)
        ["1000_b.txt"] =
      .ok (1, ⟨[("/data/a/b(1).txt", c), ("/data/a/b.txt", c2)], .entries []⟩) := by
  rw [restoreTrash, List.foldlM_cons]
  rw [show readManifest (ManifestFile.entries
    [⟨"1000_b.txt", "/a/b.txt", "1000_b.txt", "ts"⟩]) =
    [⟨"1000_b.txt", "/a/b.txt", "1000_b.txt", "ts"⟩] from rfl]
  rw [restoreOne_b2 c c2]
  rfl

/-- Claim C4: for a file at /a/b.txt (any content), move_to_trash places
it under the trash directory as 1000_b.txt (millisecond timestamp and
basename) with a manifest entry recording /a/b.txt; restore returns it
to /a/b.txt with identical content and removes the manifest entry; if
/a/b.txt was recreated in the meantime with other content, restore
instead places the trashed content at /a/b(1).txt, leaving the
recreated file, and still removes the manifest entry. -/
theorem claim_C4 {α : Type} (c c2 : α) :
    (moveToTrash "/data" 1000 "ts"
        (⟨[("/data/a/b.txt", c)], .missing⟩ : TrashState α) ["/a/b.txt"] =
      .ok (1, ⟨[("/data/.deleted_items/1000_b.txt", c)],
        .entries [⟨"1000_b.txt", "/a/b.txt", "1000_b.txt", "ts"⟩]⟩)) ∧
    (restoreTrash "/data"
        (⟨[("/data/.deleted_items/1000_b.txt", c)],
          .entries [⟨"1000_b.txt", "/a/b.txt", "1000_b.txt", "ts"⟩]⟩ :
          TrashState α)
        ["1000_b.txt"] =
      .ok (1, ⟨[("/data/a/b.txt", c)], .entries []⟩)) ∧
    (restoreTrash "/data"
        (⟨[("/data/a/b.txt", c2), ("/data/.deleted_items/1000_b.txt", c)],
          .entries [⟨"1000_b.txt", "/a/b.txt", "1000_b.txt", "ts"⟩]⟩ :
          TrashState α)
        ["1000_b.txt"] =
      .ok (1, ⟨[("/data/a/b(1).txt", c), ("/data/a/b.txt", c2)],
        .entries []⟩)) :=
  ⟨moveToTrash_b c, restoreTrash_b c, restoreTrash_b2 c c2⟩

/-! ## Single flight (claim C1)

The claim quantifies over both services.  The thumbnail generators never
suspend, so concurrent get_thumbnail calls serialize into whole atomic
calls; when the producer succeeds, the first call caches the bytes and
the claim holds.  But a failed generator caches nothing, so each of the
serialized calls re-runs the producer: with a failing producer the
producer executes once per call, not once.  The counterexample below
exhibits this with two calls.  The transcode service satisfies the claim
in both outcomes via its _active_jobs registry; the amended theorem
proves it for every number of calls and every concurrent complete
schedule, by the phase invariant transInv, and proves the thumbnail
success case by the invariant thumbInv. -/

/-- Counterexample to claim C1 as stated: two concurrent thumbnail calls
for the same key with a failing producer.  The calls serialize (each is
one atomic block), each finds the cache empty because a failed generator
writes nothing, and each executes the producer: the producer runs twice,
not exactly once. -/
theorem claim_C1_counterexample :
    ConcurrentSched 2 [0, 1] ∧
    thumbAllDone (runThumb none [0, 1] (initThumb 2)) = true ∧
    (runThumb none [0, 1] (initThumb 2)).producerCount = 2 :=
  ⟨⟨[0, 1], [], rfl, by decide⟩, by decide, by decide⟩

lemma thumbInv_step (n b : ℕ) (s : ThumbSystem) (i : ℕ)
    (h : thumbInv n b s) : thumbInv n b (thumbStep (some b) s i) := by
  obtain ⟨hlen, hA | hB⟩ := h
  · obtain ⟨hc, hp, hall⟩ := hA
    by_cases hin : i < n
    · have htask := hall i hin
      have hstep : thumbStep (some b) s i =
          { s with cacheBytes := some b,
                   producerCount := s.producerCount + 1,
                   tasks := s.tasks.set i (.done (some b)) } := by
        simp [thumbStep, htask, hc]
      rw [hstep]
      refine ⟨by simp [hlen], Or.inr ⟨rfl, by simp [hp], ?_⟩⟩
      intro j hjn
      by_cases hji : j = i
      · subst hji
        exact Or.inr (List.getElem?_set_self (by rw [hlen]; exact hjn))
      · refine Or.inl ?_
        show (s.tasks.set i (ThumbPC.done (some b)))[j]? = some ThumbPC.start
        rw [List.getElem?_set_ne (Ne.symm hji)]
        exact hall j hjn
    · have hge : s.tasks.length ≤ i := by omega
      have hnoop : thumbStep (some b) s i = s := by
        simp [thumbStep, List.getElem?_eq_none hge]
      rw [hnoop]
      exact ⟨hlen, Or.inl ⟨hc, hp, hall⟩⟩
  · obtain ⟨hc, hp, hall⟩ := hB
    by_cases hin : i < n
    · rcases hall i hin with hst | hd
      · have hstep : thumbStep (some b) s i =
            { s with tasks := s.tasks.set i (.done (some b)) } := by
          simp [thumbStep, hst, hc]
        rw [hstep]
        refine ⟨by simp [hlen], Or.inr ⟨hc, hp, ?_⟩⟩
        intro j hjn
        by_cases hji : j = i
        · subst hji
          exact Or.inr (List.getElem?_set_self (by rw [hlen]; exact hjn))
        · rcases hall j hjn with h1 | h1
          · refine Or.inl ?_
            show (s.tasks.set i (ThumbPC.done (some b)))[j]? =
              some ThumbPC.start
            rw [List.getElem?_set_ne (Ne.symm hji)]
            exact h1
          · refine Or.inr ?_
            show (s.tasks.set i (ThumbPC.done (some b)))[j]? =
              some (ThumbPC.done (some b))
            rw [List.getElem?_set_ne (Ne.symm hji)]
            exact h1
      · have hnoop : thumbStep (some b) s i = s := by
          simp [thumbStep, hd]
        rw [hnoop]
        exact ⟨hlen, Or.inr ⟨hc, hp, hall⟩⟩
    · have hge : s.tasks.length ≤ i := by omega
      have hnoop : thumbStep (some b) s i = s := by
        simp [thumbStep, List.getElem?_eq_none hge]
      rw [hnoop]
      exact ⟨hlen, Or.inr ⟨hc, hp, hall⟩⟩

lemma thumbInv_run (n b : ℕ) (q : List ℕ) (s : ThumbSystem)
    (h : thumbInv n b s) : thumbInv n b (runThumb (some b) q s) := by
  induction q generalizing s with
  | nil => exact h
  | cons i rest ih =>
    exact ih (thumbStep (some b) s i) (thumbInv_step n b s i h)

lemma transPrefix_step (n o : ℕ) (ok : Bool) (i : ℕ) (rem : List ℕ)
    (s : TransSystem) (h : transPrefix n o (i :: rem) s)
    (hin : i < n) (hio : i ≠ o) :
    transPrefix n o rem (transStep ok s i) := by
  obtain ⟨hlen, hc, hj, he, hsem, hpc, howner, hothers⟩ := h
  rcases hothers i hin hio with htask | ⟨_, htask⟩
  · have hnoop : transStep ok s i = s := by
      simp [transStep, htask, he]
    rw [hnoop]
    refine ⟨hlen, hc, hj, he, hsem, hpc, howner, ?_⟩
    intro j hjn hjo
    rcases hothers j hjn hjo with hw | ⟨hmem, hst⟩
    · exact Or.inl hw
    · rcases List.mem_cons.mp hmem with hji | hji
      · subst hji
        rw [htask] at hst
        simp at hst
      · exact Or.inr ⟨hji, hst⟩
  · have hstep : transStep ok s i =
        { s with tasks := s.tasks.set i (.waiting 0) } := by
      simp [transStep, htask, hc, hj]
    rw [hstep]
    refine ⟨by simp [hlen], hc, hj, he, hsem, hpc, ?_, ?_⟩
    · show (s.tasks.set i (TransPC.waiting 0))[o]? = some (TransPC.probing 0)
      rw [List.getElem?_set_ne hio]
      exact howner
    · intro j hjn hjo
      by_cases hji : j = i
      · subst hji
        exact Or.inl (List.getElem?_set_self (by rw [hlen]; exact hjn))
      · rcases hothers j hjn hjo with hw | ⟨hmem, hst⟩
        · refine Or.inl ?_
          show (s.tasks.set i (TransPC.waiting 0))[j]? = some (TransPC.waiting 0)
          rw [List.getElem?_set_ne (Ne.symm hji)]
          exact hw
        · rcases List.mem_cons.mp hmem with hji2 | hji2
          · exact absurd hji2 hji
          · refine Or.inr ⟨hji2, ?_⟩
            show (s.tasks.set i (TransPC.waiting 0))[j]? = some TransPC.start
            rw [List.getElem?_set_ne (Ne.symm hji)]
            exact hst

lemma transPrefix_run (ok : Bool) (n o : ℕ) (q : List ℕ) (s : TransSystem)
    (ho : o ∉ q) (hq : ∀ j ∈ q, j < n) (h : transPrefix n o q s) :
    transPrefix n o [] (runTrans ok q s) := by
  induction q generalizing s with
  | nil => exact h
  | cons i rest ih =>
    have hstep := transPrefix_step n o ok i rest s h
      (hq i (List.mem_cons_self i rest))
      (fun hio => ho (hio ▸ List.mem_cons_self i rest))
    exact ih _ (fun hmem => ho (List.mem_cons_of_mem i hmem))
      (fun j hj => hq j (List.mem_cons_of_mem i hj)) hstep

lemma transPhaseA_of_prefix_nil (n o : ℕ) (s : TransSystem)
    (h : transPrefix n o [] s) : transPhaseA n o s := by
  obtain ⟨hlen, hc, hj, he, hsem, hpc, howner, hothers⟩ := h
  refine ⟨hlen, hc, hj, he, hsem, hpc, howner, ?_⟩
  intro j hjn hjo
  rcases hothers j hjn hjo with hw | ⟨hmem, _⟩
  · exact hw
  · simp at hmem

lemma transPrefix_entry (n i₀ : ℕ) (p2 : List ℕ) (ok : Bool) (hi : i₀ < n)
    (hall : ∀ j < n, j ≠ i₀ → j ∈ p2) :
    transPrefix n i₀ p2 (transStep ok (initTrans n) i₀) := by
  have htask : (List.replicate n TransPC.start)[i₀]? = some TransPC.start := by
    simp [List.getElem?_replicate, hi]
  have hstep : transStep ok (initTrans n) i₀ =
      { cache := false, jobs := some 0, events := [false], sem := 1,
        writeCount := 0, producerCount := 0,
        tasks := (List.replicate n TransPC.start).set i₀ (.probing 0) } := by
    simp [transStep, initTrans, htask]
  rw [hstep]
  refine ⟨by simp, rfl, rfl, rfl, rfl, rfl, ?_, ?_⟩
  · exact List.getElem?_set_self (by simpa using hi)
  · intro j hjn hjo
    refine Or.inr ⟨hall j hjn hjo, ?_⟩
    show ((List.replicate n TransPC.start).set i₀ (.probing 0))[j]? =
      some TransPC.start
    rw [List.getElem?_set_ne (Ne.symm hjo)]
    simp [List.getElem?_replicate, hjn]

lemma transInv_step (n : ℕ) (ok : Bool) (s : TransSystem) (i : ℕ)
    (h : transInv n ok s) : transInv n ok (transStep ok s i) := by
  rcases h with ⟨o, ho, hA | hB⟩ | hC
  · obtain ⟨hlen, hc, hj, he, hsem, hpc, howner, hothers⟩ := hA
    rcases Nat.lt_or_ge i n with hin | hin
    · by_cases hio : i = o
      · subst hio
        have hstep : transStep ok s i =
            { s with producerCount := s.producerCount + 1,
                     tasks := s.tasks.set i (.producing 0) } := by
          simp [transStep, howner]
        rw [hstep]
        refine Or.inl ⟨i, ho, Or.inr ⟨by simp [hlen], hc, hj, he, hsem,
          by simp [hpc], ?_, ?_⟩⟩
        · exact List.getElem?_set_self (by rw [hlen]; exact ho)
        · intro j hjn hjo
          show (s.tasks.set i (TransPC.producing 0))[j]? =
            some (TransPC.waiting 0)
          rw [List.getElem?_set_ne (Ne.symm hjo)]
          exact hothers j hjn hjo
      · have htask := hothers i hin hio
        have hnoop : transStep ok s i = s := by
          simp [transStep, htask, he]
        rw [hnoop]
        exact Or.inl ⟨o, ho, Or.inl ⟨hlen, hc, hj, he, hsem, hpc, howner, hothers⟩⟩
    · have hnoop : transStep ok s i = s := by
        simp [transStep, List.getElem?_eq_none (hlen ▸ hin)]
      rw [hnoop]
      exact Or.inl ⟨o, ho, Or.inl ⟨hlen, hc, hj, he, hsem, hpc, howner, hothers⟩⟩
  · obtain ⟨hlen, hc, hj, he, hsem, hpc, howner, hothers⟩ := hB
    rcases Nat.lt_or_ge i n with hin | hin
    · by_cases hio : i = o
      · subst hio
        cases hok : ok with
        | true =>
          have hstep : transStep true s i =
              { s with cache := true, writeCount := s.writeCount + 1,
                       sem := s.sem + 1, events := s.events.set 0 true,
                       jobs := none,
                       tasks := s.tasks.set i (.done true) } := by
            simp [transStep, howner]
          rw [hstep]
          refine Or.inr ⟨by simp [hlen], by simp [hok], by simp,
            by simp [he], by simp [hsem], by simp [hpc], ?_⟩
          intro j hjn
          by_cases hji : j = i
          · subst hji
            exact Or.inl (List.getElem?_set_self (by rw [hlen]; exact hjn))
          · refine Or.inr ?_
            show (s.tasks.set i (TransPC.done true))[j]? =
              some (TransPC.waiting 0)
            rw [List.getElem?_set_ne (Ne.symm hji)]
            exact hothers j hjn hji
        | false =>
          have hstep : transStep false s i =
              { s with sem := s.sem + 1, events := s.events.set 0 true,
                       jobs := none,
                       tasks := s.tasks.set i (.done false) } := by
            simp [transStep, howner]
          rw [hstep]
          refine Or.inr ⟨by simp [hlen], by simp [hc, hok], by simp,
            by simp [he], by simp [hsem], by simp [hpc], ?_⟩
          intro j hjn
          by_cases hji : j = i
          · subst hji
            exact Or.inl (List.getElem?_set_self (by rw [hlen]; exact hjn))
          · refine Or.inr ?_
            show (s.tasks.set i (TransPC.done false))[j]? =
              some (TransPC.waiting 0)
            rw [List.getElem?_set_ne (Ne.symm hji)]
            exact hothers j hjn hji
      · have htask := hothers i hin hio
        have hnoop : transStep ok s i = s := by
          simp [transStep, htask, he]
        rw [hnoop]
        exact Or.inl ⟨o, ho, Or.inr ⟨hlen, hc, hj, he, hsem, hpc, howner, hothers⟩⟩
    · have hnoop : transStep ok s i = s := by
        simp [transStep, List.getElem?_eq_none (hlen ▸ hin)]
      rw [hnoop]
      exact Or.inl ⟨o, ho, Or.inr ⟨hlen, hc, hj, he, hsem, hpc, howner, hothers⟩⟩
  · obtain ⟨hlen, hc, hj, he, hsem, hpc, hall⟩ := hC
    rcases Nat.lt_or_ge i n with hin | hin
    · rcases hall i hin with htask | htask
      · have hnoop : transStep ok s i = s := by
          simp [transStep, htask]
        rw [hnoop]
        exact Or.inr ⟨hlen, hc, hj, he, hsem, hpc, hall⟩
      · have hstep : transStep ok s i =
            { s with tasks := s.tasks.set i (.done ok) } := by
          cases hok : ok with
          | true => simp [transStep, htask, he, hc, hok]
          | false => simp [transStep, htask, he, hc, hok]
        rw [hstep]
        refine Or.inr ⟨by simp [hlen], hc, hj, he, hsem, hpc, ?_⟩
        intro j hjn
        by_cases hji : j = i
        · subst hji
          exact Or.inl (List.getElem?_set_self (by rw [hlen]; exact hjn))
        · refine (hall j hjn).imp (fun hd => ?_) (fun hw => ?_)
          · show (s.tasks.set i (TransPC.done ok))[j]? =
              some (TransPC.done ok)
            rw [List.getElem?_set_ne (Ne.symm hji)]
            exact hd
          · show (s.tasks.set i (TransPC.done ok))[j]? =
              some (TransPC.waiting 0)
            rw [List.getElem?_set_ne (Ne.symm hji)]
            exact hw
    · have hnoop : transStep ok s i = s := by
        simp [transStep, List.getElem?_eq_none (hlen ▸ hin)]
      rw [hnoop]
      exact Or.inr ⟨hlen, hc, hj, he, hsem, hpc, hall⟩

lemma transInv_run (n : ℕ) (ok : Bool) (q : List ℕ) (s : TransSystem)
    (h : transInv n ok s) : transInv n ok (runTrans ok q s) := by
  induction q generalizing s with
  | nil => exact h
  | cons i rest ih => exact ih (transStep ok s i) (transInv_step n ok s i h)

/-- Claim C1 (amended): for every n of at least one concurrent calls
with the same key and no pre-existing cache entry.  Transcode: under any
schedule that opens with every call running its first block and that
completes all calls, the producer executes exactly once and every call
returns the same outcome, the cache path when the producer succeeded and
None when it failed.  Thumbnail: the calls serialize into whole atomic
blocks; when the producer succeeds, any complete schedule runs it
exactly once and every call returns the produced bytes.  When the
thumbnail producer fails nothing is cached and the producer runs once
per call, not once (see the counterexample). -/
theorem claim_C1 (n : ℕ) (ok : Bool) (sched : List ℕ) (hn : 1 ≤ n)
    (hconc : ConcurrentSched n sched)
    (hdone : transAllDone (runTrans ok sched (initTrans n)) = true) :
    ((runTrans ok sched (initTrans n)).producerCount = 1 ∧
      ∀ pc ∈ (runTrans ok sched (initTrans n)).tasks, pc = TransPC.done ok) ∧
    (∀ b, thumbAllDone (runThumb (some b) sched (initThumb n)) = true →
      (runThumb (some b) sched (initThumb n)).producerCount = 1 ∧
      ∀ pc ∈ (runThumb (some b) sched (initThumb n)).tasks,
        pc = ThumbPC.done (some b)) := by
  have hthumb : ∀ b : ℕ,
      thumbAllDone (runThumb (some b) sched (initThumb n)) = true →
      (runThumb (some b) sched (initThumb n)).producerCount = 1 ∧
      ∀ pc ∈ (runThumb (some b) sched (initThumb n)).tasks,
        pc = ThumbPC.done (some b) := by
    intro b hdoneH
    have hInit : thumbInv n b (initThumb n) := by
      refine ⟨by simp [initThumb], Or.inl ⟨rfl, rfl, ?_⟩⟩
      intro j hjn
      simp [initThumb, List.getElem?_replicate, hjn]
    have hInv := thumbInv_run n b sched (initThumb n) hInit
    obtain ⟨hlen, hA | hB⟩ := hInv
    · exfalso
      obtain ⟨hc, hp, hall⟩ := hA
      have h0 := hall 0 (by omega)
      have := List.all_eq_true.mp hdoneH _ (List.getElem?_mem h0)
      simp [thumbDone] at this
    · obtain ⟨hc, hp, hall⟩ := hB
      refine ⟨hp, ?_⟩
      intro pc hpcmem
      obtain ⟨j, hj2⟩ := List.mem_iff_getElem?.mp hpcmem
      have hjn : j < n := by
        have := (List.getElem?_eq_some_iff.mp hj2).1
        omega
      rcases hall j hjn with hst | hd
      · rw [hj2] at hst
        have heq := Option.some_injective _ hst
        have := List.all_eq_true.mp hdoneH _ hpcmem
        rw [heq] at this
        simp [thumbDone] at this
      · rw [hj2] at hd
        exact Option.some_injective _ hd
  refine ⟨?_, hthumb⟩
  obtain ⟨p, rest, hsched, hperm⟩ := hconc
  cases p with
  | nil =>
    have := hperm.symm.eq_nil
    rw [List.range_eq_nil] at this
    omega
  | cons i₀ p2 =>
    have hmem : ∀ j, j ∈ i₀ :: p2 ↔ j < n := by
      intro j
      rw [hperm.mem_iff, List.mem_range]
    have hi₀ : i₀ < n := (hmem i₀).mp (List.mem_cons_self i₀ p2)
    have hnodup : (i₀ :: p2).Nodup :=
      hperm.nodup_iff.mpr (List.nodup_range n)
    have hall : ∀ j < n, j ≠ i₀ → j ∈ p2 := by
      intro j hjn hjo
      rcases List.mem_cons.mp ((hmem j).mpr hjn) with hji | hji
      · exact absurd hji hjo
      · exact hji
    have h1 := transPrefix_entry n i₀ p2 ok hi₀ hall
    have h2 := transPrefix_run ok n i₀ p2 _
      (List.Nodup.not_mem hnodup)
      (fun j hj => (hmem j).mp (List.mem_cons_of_mem i₀ hj)) h1
    have hInvP : transInv n ok (runTrans ok (i₀ :: p2) (initTrans n)) := by
      have : runTrans ok (i₀ :: p2) (initTrans n) =
          runTrans ok p2 (transStep ok (initTrans n) i₀) := by
        simp [runTrans]
      rw [this]
      exact Or.inl ⟨i₀, hi₀, Or.inl (transPhaseA_of_prefix_nil n i₀ _ h2)⟩
    have hInv : transInv n ok (runTrans ok sched (initTrans n)) := by
      rw [hsched]
      have : runTrans ok ((i₀ :: p2) ++ rest) (initTrans n) =
          runTrans ok rest (runTrans ok (i₀ :: p2) (initTrans n)) := by
        simp [runTrans, List.foldl_append]
      rw [this]
      exact transInv_run n ok rest _ hInvP
    have hdone2 :
        ∀ pc ∈ (runTrans ok sched (initTrans n)).tasks, transDone pc = true :=
      fun pc hpc => List.all_eq_true.mp hdone pc hpc
    rcases hInv with ⟨o, ho, hA | hB⟩ | hC
    · exfalso
      have := hdone2 _ (List.getElem?_mem hA.2.2.2.2.2.2.1)
      simp [transDone] at this
    · exfalso
      have := hdone2 _ (List.getElem?_mem hB.2.2.2.2.2.2.1)
      simp [transDone] at this
    · obtain ⟨hlen, hc, hj, he, hsem, hpc, hall2⟩ := hC
      refine ⟨hpc, ?_⟩
      intro pc hpcmem
      obtain ⟨j, hj2⟩ := List.mem_iff_getElem?.mp hpcmem
      have hjn : j < n := by
        have := (List.getElem?_eq_some_iff.mp hj2).1
        omega
      rcases hall2 j hjn with hd | hw
      · rw [hj2] at hd
        exact Option.some_injective _ hd
      · rw [hj2] at hw
        have heq := Option.some_injective _ hw
        have := hdone2 _ hpcmem
        rw [heq] at this
        simp [transDone] at this

/-- Witness for claim C1: two concurrent calls of each service, schedule
0 1 0 0 1, producer succeeding; each producer runs once, both transcode
calls return the cache path and both thumbnail calls return the bytes. -/
theorem claim_C1_witness :
    ((runTrans true [0, 1, 0, 0, 1] (initTrans 2)).producerCount = 1 ∧
      ∀ pc ∈ (runTrans true [0, 1, 0, 0, 1] (initTrans 2)).tasks,
        pc = TransPC.done true) ∧
    ((runThumb (some 7) [0, 1, 0, 0, 1] (initThumb 2)).producerCount = 1 ∧
      ∀ pc ∈ (runThumb (some 7) [0, 1, 0, 0, 1] (initThumb 2)).tasks,
        pc = ThumbPC.done (some 7)) :=
  ⟨(claim_C1 2 true [0, 1, 0, 0, 1] (by norm_num)
      ⟨[0, 1], [0, 0, 1], rfl, by decide⟩ (by decide)).1,
   (claim_C1 2 true [0, 1, 0, 0, 1] (by norm_num)
      ⟨[0, 1], [0, 0, 1], rfl, by decide⟩ (by decide)).2 7 (by decide)⟩

end FilaMama
